import Mathlib

set_option maxHeartbeats 1000000

/-!
Verification development for the `oddish` repository: a shallow embedding of
the Apple HealthKit XML-to-table ingestion (`apple_health_kit.py`), the
polygon utilities (`polygon.py`) and the run composition (`run/run.py`),
together with theorems settling the specification claims.

Python dictionaries are modelled as association lists with insert-or-update
semantics, pandas DataFrames as column lists plus cell rows, XML elements as
a rose tree, and fallible Python code (code that can raise) as
`Option`-returning functions where `none` models an uncaught exception.
Third-party parsers (`pandas.to_datetime`, `pandas.to_numeric`,
`xml.etree.ElementTree.fromstring`) are taken as function parameters.
-/

/-- Map a fallible function over a list, failing if any element fails.
Models a Python loop that raises on the first bad element. -/
def mapMO {α β : Type} (f : α → Option β) : List α → Option (List β)
  | [] => some []
  | a :: rest =>
    match f a, mapMO f rest with
    | some b, some bs => some (b :: bs)
    | _, _ => none

/-- Fold a fallible step function over a list, failing if any step fails. -/
def foldMO {α β : Type} (f : β → α → Option β) : β → List α → Option β
  | b, [] => some b
  | b, a :: rest =>
    match f b a with
    | some b' => foldMO f b' rest
    | none => none

/-- First-seen-order deduplication, the key order of a Python dict that is
filled by repeated insertion. -/
def dedupFirst {α : Type} [DecidableEq α] (l : List α) : List α :=
  l.foldl (fun acc k => if k ∈ acc then acc else acc ++ [k]) []

/-- One step of first-seen-order key accumulation. -/
def dedupStep {α : Type} [DecidableEq α] (acc : List α) (k : α) : List α :=
  if k ∈ acc then acc else acc ++ [k]

/-- Fuelled scanner for `replaceAllL`; the fuel only bounds the recursion
depth and is always sufficient when it starts at the list length, since
every step consumes at least one character. -/
def replaceFuel (pat rep : List Char) : Nat → List Char → List Char
  | _, [] => []
  | 0, l => l
  | fuel + 1, c :: rest =>
    if pat.isPrefixOf (c :: rest) ∧ pat ≠ [] then
      rep ++ replaceFuel pat rep fuel (rest.drop (pat.length - 1))
    else
      c :: replaceFuel pat rep fuel rest

/-- Replace every (non-overlapping, leftmost-first) occurrence of `pat` by
`rep`; models Python `str.replace` for a nonempty pattern. -/
def replaceAllL (pat rep : List Char) (l : List Char) : List Char :=
  replaceFuel pat rep l.length l

/-- String wrapper for `replaceAllL`; models Python `s.replace(pat, rep)`. -/
def strReplace (s pat rep : String) : String :=
  String.mk (replaceAllL pat.data rep.data s.data)

/-- Index of the first occurrence of `pat` in a character list; models
`re.search` with a literal pattern (`span()[0]`). -/
def findIdxL (pat : List Char) : List Char → Option Nat
  | [] => if pat = [] then some 0 else none
  | c :: rest =>
    if pat.isPrefixOf (c :: rest) then some 0
    else (findIdxL pat rest).map (· + 1)

/-- Substring test; models Python `pat in s`. -/
def containsSub (s pat : String) : Bool := (findIdxL pat.data s.data).isSome

/-- ASCII lower-casing; models Python `str.lower` on ASCII column names. -/
def lowerS (s : String) : String := String.mk (s.data.map Char.toLower)

/-- Column-name test `'date' in col.lower()` from the table builders. -/
def isDateCol (c : String) : Bool := containsSub (lowerS c) "date"

/-- Column-name test `'time' in col.lower()` from the route-table builder. -/
def isTimeCol (c : String) : Bool := containsSub (lowerS c) "time"

/-- Fuelled scanner for `splitOnL`; the fuel only bounds the recursion depth
and is always sufficient when it starts at the list length. -/
def splitFuel (sep : List Char) : Nat → List Char → List (List Char)
  | _, [] => [[]]
  | 0, l => [l]
  | fuel + 1, c :: rest =>
    if sep.isPrefixOf (c :: rest) ∧ sep ≠ [] then
      [] :: splitFuel sep fuel (rest.drop (sep.length - 1))
    else
      match splitFuel sep fuel rest with
      | [] => [[c]]
      | s :: ss => (c :: s) :: ss

/-- Split on a nonempty separator; models Python `str.split(sep)`. -/
def splitOnL (sep : List Char) (l : List Char) : List (List Char) :=
  splitFuel sep l.length l

/-- Title-casing step: upper-case an alphabetic character that follows a
non-alphabetic one, lower-case the rest; the Bool records whether the
previous character was alphabetic. -/
def titleL : Bool → List Char → List Char
  | _, [] => []
  | prev, c :: rest =>
    (if c.isAlpha then (if prev then c.toLower else c.toUpper) else c) :: titleL c.isAlpha rest

/-- Models Python `str.title` on ASCII text. -/
def pyTitle (s : String) : String := String.mk (titleL false s.data)

/-- Name formatting from `build_polygon_hierarchy`:
`name.replace('_', ' ').title()`. -/
def formatName (s : String) : String := pyTitle (strReplace s "_" " ")

/-- Python `' '.join(names)`. -/
def joinSpace : List String → String
  | [] => ""
  | [s] => s
  | s :: rest => s ++ " " ++ joinSpace rest

/-- Shallow model of an `xml.etree.ElementTree` element: tag, attributes in
document order, text, and child elements. -/
inductive Elem : Type where
  | mk : String → List (String × String) → Option String → List Elem → Elem

mutual

/-- Boolean structural equality on elements. -/
def elemBeq : Elem → Elem → Bool
  | .mk t a x cs, .mk t' a' x' cs' =>
    decide (t = t') && decide (a = a') && decide (x = x') && elemsBeq cs cs'

/-- Boolean structural equality on element lists. -/
def elemsBeq : List Elem → List Elem → Bool
  | [], [] => true
  | c :: cs, c' :: cs' => elemBeq c c' && elemsBeq cs cs'
  | [], _ :: _ => false
  | _ :: _, [] => false

end

/-- Tag of an element. -/
def Elem.tag : Elem → String
  | .mk t _ _ _ => t

/-- Attribute list of an element (models `e.attrib`). -/
def Elem.attrs : Elem → List (String × String)
  | .mk _ a _ _ => a

/-- Text of an element (models `e.text`). -/
def Elem.text : Elem → Option String
  | .mk _ _ x _ => x

/-- Child elements of an element. -/
def Elem.children : Elem → List Elem
  | .mk _ _ _ cs => cs

mutual

/-- An element followed by its proper descendants, in document order. -/
def subtreeE : Elem → List Elem
  | .mk t a x cs => .mk t a x cs :: subtreeL cs

/-- All elements of a forest, each listed before its own descendants. -/
def subtreeL : List Elem → List Elem
  | [] => []
  | c :: rest => subtreeE c ++ subtreeL rest

end

/-- All elements of a forest, each listed before its own descendants
(document order). -/
def subtreeAll (l : List Elem) : List Elem := subtreeL l

/-- Proper descendants of an element, in document order. -/
def Elem.descendants (e : Elem) : List Elem := subtreeAll e.children

/-- Models `e.findall('.//tg')`: all descendants with the given tag. -/
def Elem.findall (e : Elem) (tg : String) : List Elem :=
  e.descendants.filter (fun c => c.tag = tg)

/-- Models `e.find('.//tg')`: the first descendant with the given tag. -/
def Elem.findFirst (e : Elem) (tg : String) : Option Elem :=
  (e.findall tg).head?

/-- Models `e.attrib[k]` as an `Option` (a missing key raises `KeyError`). -/
def getAttr (e : Elem) (k : String) : Option String :=
  (e.attrs.find? (fun kv => kv.1 = k)).map (fun kv => kv.2)

/-- Association-list model of a Python `dict` from `str` to `str`. -/
abbrev Dict := List (String × String)

/-- Models `d[k] = v`: update in place if the key exists, else append. -/
def dinsert (k v : String) : Dict → Dict
  | [] => [(k, v)]
  | (k', v') :: rest => if k' = k then (k, v) :: rest else (k', v') :: dinsert k v rest

/-- Models `d.get(k)`. -/
def rlookup (d : Dict) (k : String) : Option String :=
  (d.find? (fun kv => kv.1 = k)).map (fun kv => kv.2)

/-- Fold a key/value list into a dict, starting from `d0`; models the
`for key in e.attrib.keys(): d[key] = e.attrib[key]` loops. -/
def attrsDict (l : List (String × String)) (d0 : Dict) : Dict :=
  l.foldl (fun d kv => dinsert kv.1 kv.2 d) d0

/-- Models `groups.setdefault(k, []).append(v)` on an insertion-ordered
dict of lists. -/
def groupAppend {β : Type} (k : String) (v : β) : List (String × List β) → List (String × List β)
  | [] => [(k, [v])]
  | (k', vs) :: rest =>
    if k' = k then (k', vs ++ [v]) :: rest else (k', vs) :: groupAppend k v rest

/-- Cell of a table: a raw string, a parsed datetime (as an abstract
timestamp), or a parsed number. -/
inductive Cell : Type where
  | str : String → Cell
  | dt : Int → Cell
  | num : Rat → Cell
deriving DecidableEq

/-- Model of a pandas DataFrame built from a list of dicts: the column list
(union of row keys in first-seen order) plus the rows; a key missing from a
row models a NaN cell. -/
structure Table : Type where
  cols : List String
  rows : List (List (String × Cell))
deriving DecidableEq

/-- Column list of `pd.DataFrame(list_of_dicts)`: union of the dict keys in
first-seen order. -/
def collectCols (rows : List Dict) : List String :=
  rows.foldl (fun acc row => row.foldl (fun a kv => if kv.1 ∈ a then a else a ++ [kv.1]) acc) []

/-- Build the raw (all-string) table from a list of dicts. -/
def mkTable (rows : List Dict) : Table :=
  ⟨collectCols rows, rows.map (fun row => row.map (fun kv => (kv.1, Cell.str kv.2)))⟩

/-- Datetime coercion of one cell; `toDT` models `pandas.to_datetime`, whose
failure (`none`) is an uncaught exception. -/
def coerceCellDT (toDT : String → Option Int) : Cell → Option Cell
  | .str s => (toDT s).map Cell.dt
  | c => some c

/-- Coerce every column selected by `isCol` to datetime; models the
unguarded `df[col] = pd.to_datetime(df[col])` loops of the table builders. -/
def coerceDateCols (isCol : String → Bool) (toDT : String → Option Int) (t : Table) :
    Option Table :=
  (mapMO (fun row => mapMO (fun kv =>
      if isCol kv.1 then (coerceCellDT toDT kv.2).map (fun c => (kv.1, c)) else some kv) row)
    t.rows).map (fun rows => ⟨t.cols, rows⟩)

/-- Whether one cell would survive `pandas.to_numeric`. -/
def cellNumOk (toNum : String → Option Rat) : Cell → Bool
  | .str s => (toNum s).isSome
  | _ => true

/-- Numeric conversion of one cell (only applied when the whole column
converts). -/
def coerceNumCell (toNum : String → Option Rat) : Cell → Cell
  | .str s =>
    match toNum s with
    | some q => Cell.num q
    | none => Cell.str s
  | c => c

/-- Models `try: df[c] = pd.to_numeric(df[c]) except: pass`: the column is
converted only when it exists and every cell converts; any failure
(including a missing column) leaves the table unchanged. -/
def coerceNumCol (c : String) (toNum : String → Option Rat) (t : Table) : Table :=
  if t.cols.contains c &&
      t.rows.all (fun row => row.all (fun kv => (kv.1 != c) || cellNumOk toNum kv.2)) then
    ⟨t.cols,
      t.rows.map (fun row => row.map (fun kv =>
        if kv.1 = c then (kv.1, coerceNumCell toNum kv.2) else kv))⟩
  else t

/-- Type-key normalisation of `_build_AHK_quantity_tables`: three successive
Python `str.replace` calls (each removes every occurrence, not only a
leading one). -/
def stripQuantityType (s : String) : String :=
  strReplace (strReplace (strReplace s "HKQuantityTypeIdentifier" "") "HKCategoryTypeIdentifier" "")
    "HKDataType" ""

/-- The per-record dict of `_build_AHK_quantity_tables`. -/
def recordRow (r : Elem) : Dict := attrsDict r.attrs []

/-- Grouping pass of `_build_AHK_quantity_tables` over `.//Record` elements;
a record without a `type` attribute raises `KeyError`. -/
def quantityGroups (root : Elem) : Option (List (String × List Dict)) :=
  foldMO (fun acc r =>
      (getAttr r "type").map (fun ty => groupAppend (stripQuantityType ty) (recordRow r) acc))
    [] (root.findall "Record")

/-- Full `_build_AHK_quantity_tables`: group records, build one DataFrame
per stripped type, coerce date-named columns (unguarded) and the `value`
column (guarded by `try`/`except`). -/
def buildQuantityTables (toDT : String → Option Int) (toNum : String → Option Rat) (root : Elem) :
    Option (List (String × Table)) :=
  (quantityGroups root).bind (fun gs =>
    mapMO (fun g => (coerceDateCols isDateCol toDT (mkTable g.2)).map
      (fun t => (g.1, coerceNumCol "value" toNum t))) gs)

/-- Models `list.remove(x)`: drop the first occurrence of `x`, `none` when
`x` is absent (Python raises `ValueError`). Python compares `Element`
objects by identity; the model compares them structurally, which agrees on
every tree without structurally equal siblings. -/
def removeFirst (x : Elem) : List Elem → Option (List Elem)
  | [] => none
  | c :: rest => if elemBeq c x then some rest else (removeFirst x rest).map (fun r => c :: r)

/-- Remove each element of `xs` in turn from `cs`; models the
`for child in workout.findall('.//WorkoutActivity'): workout.remove(child)`
loop of `_build_AHK_workout_tables`. -/
def removeAll (xs : List Elem) (cs : List Elem) : Option (List Elem) :=
  foldMO (fun acc x => removeFirst x acc) cs xs

mutual

/-- Computable size of an element (used as recursion fuel for the tree
mutation). -/
def elemSizeE : Elem → Nat
  | .mk _ _ _ cs => 1 + elemSizeL cs

/-- Computable size of a forest. -/
def elemSizeL : List Elem → Nat
  | [] => 1
  | c :: rest => 1 + elemSizeE c + elemSizeL rest

end

/-- Computable size of a forest (used as recursion fuel for the tree
mutation). -/
def elemsSize (l : List Elem) : Nat := elemSizeL l

/-- The WorkoutActivity descendants of a child forest, in document order
(what `workout.findall('.//WorkoutActivity')` returns). -/
def waDesc (cs : List Elem) : List Elem :=
  (subtreeAll cs).filter (fun e => e.tag = "WorkoutActivity")

/-- Fuelled recursion for `scrubL`; the fuel only bounds the recursion depth
and is always sufficient when it starts at `sizeOf` of the forest, since the
removal step only shrinks a child list (`removeAll_sublist` with
`sublist_elemsSize_le`). -/
def scrubFuel : Nat → List Elem → Option (List Elem)
  | _, [] => some []
  | 0, _ :: _ => none
  | fuel + 1, .mk t a x cs :: rest =>
    if t = "Workout" then
      match removeAll (waDesc cs) cs with
      | none => none
      | some cs' =>
        match scrubFuel fuel cs', scrubFuel fuel rest with
        | some cs'', some rest' => some (.mk t a x cs'' :: rest')
        | _, _ => none
    else
      match scrubFuel fuel cs, scrubFuel fuel rest with
      | some cs'', some rest' => some (.mk t a x cs'' :: rest')
      | _, _ => none

/-- In-place mutation performed by `_build_AHK_workout_tables` on the parsed
XML tree: every `Workout` element has its `WorkoutActivity` descendants
removed from its direct children (`none` models the `ValueError` raised when
such a descendant is not a direct child). -/
def scrubL (cs : List Elem) : Option (List Elem) := scrubFuel (elemsSize cs) cs

/-- Workout-key normalisation of `_build_AHK_workout_tables`: a Python
`str.replace` (removes every occurrence). -/
def stripWorkoutType (s : String) : String := strReplace s "HKWorkoutActivityType" ""

/-- Statistic-type normalisation inside the WorkoutStatistics loop. -/
def stripStatType (s : String) : String := strReplace s "HKQuantityTypeIdentifier" ""

/-- The MetadataEntry loop: `workout_dict[m.attrib['key']] = m.attrib['value']`;
a missing `key` or `value` attribute raises `KeyError`. -/
def metaFold (ms : List Elem) (d : Dict) : Option Dict :=
  foldMO (fun d m =>
      (getAttr m "key").bind (fun k => (getAttr m "value").map (fun v => dinsert k v d)))
    d ms

/-- Inner attribute loop of one WorkoutStatistics element: every attribute
except `type`, `startDate`, `endDate` becomes a `{stripped type}_{key}`
entry. -/
def statRowFold (ty : String) (l : List (String × String)) (d : Dict) : Dict :=
  l.foldl (fun d kv =>
    if kv.1 = "type" ∨ kv.1 = "startDate" ∨ kv.1 = "endDate" then d
    else dinsert (stripStatType ty ++ "_" ++ kv.1) kv.2 d) d

/-- The WorkoutStatistics loop; a statistic without a `type` attribute
raises `KeyError`. -/
def statFold (sts : List Elem) (d : Dict) : Option Dict :=
  foldMO (fun d st => (getAttr st "type").map (fun ty => statRowFold ty st.attrs d)) d sts

/-- The WorkoutRoute step: if a WorkoutRoute descendant exists (after the
WorkoutActivity removal), store its FileReference `path`; a WorkoutRoute
without a FileReference descendant or without a `path` attribute raises. -/
def routeStep (w' : Elem) (d : Dict) : Option Dict :=
  match w'.findFirst "WorkoutRoute" with
  | none => some d
  | some r =>
    (r.findFirst "FileReference").bind (fun fr =>
      (getAttr fr "path").map (fun p => dinsert "route_file_reference" p d))

/-- Per-workout processing of `_build_AHK_workout_tables`, in source order:
attributes, metadata entries, WorkoutActivity removal, statistics, route
reference; returns the (stripped) grouping key and the row dict. -/
def buildWorkoutRow (w : Elem) : Option (String × Dict) :=
  (getAttr w "workoutActivityType").bind (fun ty =>
    (metaFold (w.findall "MetadataEntry") (attrsDict w.attrs [])).bind (fun d1 =>
      (removeAll (w.findall "WorkoutActivity") w.children).bind (fun cs' =>
        (statFold ((Elem.mk w.tag w.attrs w.text cs').findall "WorkoutStatistics") d1).bind
          (fun d2 =>
            (routeStep (Elem.mk w.tag w.attrs w.text cs') d2).map (fun d3 =>
              (stripWorkoutType ty, d3))))))

/-- Full `_build_AHK_workout_tables`: build one row per `.//Workout`, group
by stripped activity type, coerce date-named columns, and return the tables
together with the (mutated) XML tree. -/
def buildWorkoutTables (toDT : String → Option Int) (root : Elem) :
    Option (List (String × Table) × Elem) :=
  (mapMO buildWorkoutRow (root.findall "Workout")).bind (fun krs =>
    (mapMO (fun g => (coerceDateCols isDateCol toDT (mkTable g.2)).map (fun t => (g.1, t)))
        (krs.foldl (fun acc kr => groupAppend kr.1 kr.2 acc) [])).bind (fun tables =>
      (scrubL root.children).map (fun cs' =>
        (tables, Elem.mk root.tag root.attrs root.text cs'))))

/-- Route identifier of `_build_AHK_route_tables`:
`route_file.split('\\')[-1].replace('.gpx', '')` — a split on backslash
followed by removal of every occurrence of `.gpx`. -/
def routeId (path : String) : String :=
  strReplace (String.mk ((splitOnL ['\\'] path.data).getLastD [])) ".gpx" ""

/-- One GPX track point row. GPX namespace-qualified tags
(`ahk-workout-route:ele` etc.) are modelled as their local names. -/
structure TrkptRow : Type where
  route_id : String
  lat : String
  lon : String
  ele : Option String
  time : Option String
  speed : Option String
  course : Option String
  hAcc : Option String
  vAcc : Option String
deriving DecidableEq

/-- Per-trkpt extraction of `_build_AHK_route_tables`: `lat`/`lon` from
attributes (`KeyError` when missing), the rest from the `.text` of
sub-elements (`AttributeError` when the sub-element is missing). -/
def buildTrkptRow (rid : String) (p : Elem) : Option TrkptRow :=
  (getAttr p "lat").bind (fun lat =>
  (getAttr p "lon").bind (fun lon =>
  (p.findFirst "ele").bind (fun eleE =>
  (p.findFirst "time").bind (fun timeE =>
  (p.findFirst "extensions").bind (fun ext =>
  (ext.findFirst "speed").bind (fun speedE =>
  (ext.findFirst "course").bind (fun courseE =>
  (ext.findFirst "hAcc").bind (fun hAccE =>
  (ext.findFirst "vAcc").map (fun vAccE =>
    ⟨rid, lat, lon, eleE.text, timeE.text, speedE.text, courseE.text, hAccE.text,
      vAccE.text⟩)))))))))

/-- Dict entry for an optional text value; a missing text models a NaN. -/
def optField (k : String) : Option String → Dict
  | some s => [(k, s)]
  | none => []

/-- The row dict appended to `trkpt_list` for one track point, in source
key order. -/
def rawRowOfTrkpt (r : TrkptRow) : Dict :=
  [("route_id", r.route_id), ("lat", r.lat), ("lon", r.lon)]
    ++ optField "ele" r.ele ++ optField "time" r.time ++ optField "speed" r.speed
    ++ optField "course" r.course ++ optField "hAcc" r.hAcc ++ optField "vAcc" r.vAcc

/-- Track-point collection loop over the GPX files (each given as its path
and parsed root). -/
def buildRouteRows (files : List (String × Elem)) : Option (List TrkptRow) :=
  match files with
  | [] => some []
  | (f, root) :: rest =>
    match mapMO (buildTrkptRow (routeId f)) (root.findall "trkpt"), buildRouteRows rest with
    | some rs, some more => some (rs ++ more)
    | _, _ => none

/-- The numeric columns of the route table. -/
def routeValueCols : List String := ["lat", "lon", "ele", "speed", "course", "hAcc", "vAcc"]

/-- Full `_build_AHK_route_tables`: one table over all files, `time`-named
columns coerced to datetime (unguarded), the seven value columns coerced to
numeric under `try`/`except`. -/
def build_AHK_route_tables (toDT : String → Option Int) (toNum : String → Option Rat)
    (files : List (String × Elem)) : Option Table :=
  (buildRouteRows files).bind (fun rs =>
    (coerceDateCols isTimeCol toDT (mkTable (rs.map rawRowOfTrkpt))).map (fun t =>
      routeValueCols.foldl (fun t c => coerceNumCol c toNum t) t))

/-- The literal pattern of `re.search('<!DOCTYPE', xml_string)`. -/
def doctypePat : List Char := "<!DOCTYPE".data

/-- The literal pattern of `re.search(']>', xml_string)`. -/
def closePat : List Char := "]>".data

/-- DOCTYPE removal of `_load_apple_healthkit_export_xml`:
`xml_string[:start_strip] + xml_string[end_strip:]` where the two positions
come from the first occurrences of the patterns; a missing pattern makes
`re.search` return `None` and `.span()` raise `AttributeError`. -/
def stripDoctype (s : List Char) : Option (List Char) :=
  match findIdxL doctypePat s, findIdxL closePat s with
  | some i, some j => some (s.take i ++ s.drop (j + 2))
  | _, _ => none

/-- Models `xml_string.replace("\x0b", "")`. -/
def removeVT (s : List Char) : List Char := s.filter (fun c => c ≠ '\x0b')

/-- Full `_load_apple_healthkit_export_xml` on the file contents, with the
third-party `ET.fromstring` given as the `parse` parameter. -/
def loadExportXml (parse : List Char → Option Elem) (s : List Char) : Option Elem :=
  (stripDoctype s).bind (fun s' => parse (removeVT s'))

/-- Coordinate-list processing of `load_polygon`: when first and last
coordinates differ the first is appended; an empty list raises `IndexError`
(an empty CSV already raises inside `pandas.read_csv`). -/
def load_polygon_ring (coords : List (Rat × Rat)) : Option (List (Rat × Rat)) :=
  match coords, coords.getLast? with
  | c :: rest, some lst => some (if c ≠ lst then (c :: rest) ++ [c] else c :: rest)
  | _, _ => none

/-- Model of `union_polygons`: shapely polygons are modelled as point sets
and `Polygon.union` as set union; the fold starts from the empty polygon
`Polygon()`. -/
def union_polygons (ps : List (Set (Rat × Rat))) : Set (Rat × Rat) :=
  ps.foldl (fun acc p => acc ∪ p) ∅

/-- One row of `build_polygon_hierarchy` (keys `city`, `region`, `section`,
`name`; the polygon itself is irrelevant to the naming claim). -/
structure PolyRow : Type where
  city : String
  region : String
  sectionName : String
  name : String
deriving DecidableEq

/-- The `-`-separated name components before the first `.` of a polygon
file's base name: `basename.split('.')[0].split('-')`. -/
def polygonNameParts (base : String) : List String :=
  (splitOnL ['-'] ((splitOnL ['.'] base.data).headD [])).map String.mk

/-- Row construction of `build_polygon_hierarchy` for one file base name;
`none` models the `IndexError` on `formatted_names[1]` / `[2]`. -/
def build_polygon_row (base : String) : Option PolyRow :=
  let formatted := (polygonNameParts base).map formatName
  match formatted with
  | c :: r :: s :: _ => some ⟨c, r, s, joinSpace formatted⟩
  | _ => none

/-- One-second grid from `t0` to `t1`, the index produced by
`resample('1S')` on whole-second timestamps. -/
def gridRange (t0 t1 : Int) : List Int :=
  (List.range (t1 - t0 + 1).toNat).map (fun i => t0 + Int.ofNat i)

/-- Value of a series at a label (pandas index lookup). -/
def hrLookup (rows : List (Int × Rat)) (t : Int) : Option Rat :=
  (rows.find? (fun r => r.1 = t)).map (fun r => r.2)

/-- Time-weighted linear interpolation between the sorted sample points,
clamped at both ends; models `Series.interpolate(method='time')` on the
resampled grid (whose first and last points are real samples). -/
def interpAt : List (Int × Rat) → Int → Rat
  | [], _ => 0
  | [(_, v1)], _ => v1
  | (t1, v1) :: (t2, v2) :: rest, t =>
    if t ≤ t1 then v1
    else if t ≤ t2 then v1 + (v2 - v1) * (((t - t1 : Int) : Rat) / ((t2 - t1 : Int) : Rat))
    else interpAt ((t2, v2) :: rest) t

/-- Model of `Run.interpolate_heart_rate` on a heart-rate series given as
(whole-second startDate, value) pairs: resample to a one-second grid from
first to last sample, keep real samples with status `real`, fill the gaps
by time interpolation with status `sampled`. -/
def interpolate_heart_rate (rows : List (Int × Rat)) : List (Int × Rat × String) :=
  match rows with
  | [] => []
  | (t0, _) :: _ =>
    let t1 := ((rows.getLast?).map (fun r => r.1)).getD t0
    (gridRange t0 t1).map (fun t =>
      match hrLookup rows t with
      | some v => (t, v, "real")
      | none => (t, interpAt rows t, "sampled"))

/-- Index-aligned division of two pandas Series: the result is indexed by
the union of the labels, with a missing label on either side giving NaN
(`none`). -/
def seriesDiv (a b : List (Int × Rat)) : List (Int × Option Rat) :=
  (dedupFirst (a.map (fun p => p.1) ++ b.map (fun p => p.1))).map (fun l =>
    (l,
      match hrLookup a l, hrLookup b l with
      | some x, some y => some (x / y)
      | _, _ => none))

/-- Model of `Run.calc_pace_per_heart_rate`: the route's speed Series
(keyed by its original row labels) divided by the interpolated heart-rate
value Series (keyed by its post-`reset_index` positions). -/
def calc_pace_per_heart_rate (speed : List (Int × Rat)) (hr : List (Int × Rat × String)) :
    List (Int × Option Rat) :=
  seriesDiv speed (hr.enum.map (fun p => ((p.1 : Int), p.2.2.1)))

/-- Modelled from the spec wording of claims C1/C5: strip a marker only when
it is a leading piece of the string (what "prefix stripped" means). -/
def stripLeadIf (p s : String) : String :=
  if p.data.isPrefixOf s.data then String.mk (s.data.drop p.data.length) else s

/-- Modelled from the spec wording of claim C1: the record key with the
three known markers stripped as leading pieces. -/
def specStripQuantityType (s : String) : String :=
  stripLeadIf "HKDataType" (stripLeadIf "HKCategoryTypeIdentifier"
    (stripLeadIf "HKQuantityTypeIdentifier" s))

/-- Modelled from the spec wording of claim C5: the workout key with the
marker stripped as a leading piece. -/
def specStripWorkoutType (s : String) : String := stripLeadIf "HKWorkoutActivityType" s

/-- Modelled from the spec wording of claim C6: the file's base name (the
part after the last `/`) with a trailing `.gpx` removed. -/
def specRouteId (p : String) : String :=
  let base := (splitOnL ['/'] p.data).getLastD []
  if ".gpx".data.isSuffixOf base then String.mk (base.take (base.length - 4))
  else String.mk base

/-- A datetime parser that accepts everything (used in witnesses). -/
def constDT : String → Option Int := fun _ => some 0

/-- A numeric parser that accepts everything (used in witnesses). -/
def constNum : String → Option Rat := fun _ => some 1

/-- A numeric parser that rejects everything (used in witnesses). -/
def failNum : String → Option Rat := fun _ => none

/-- An XML parser that records the exact string it was given as the tag of
the returned element (used to observe the loader's preprocessing). -/
def parseInj : List Char → Option Elem := fun cs => some (Elem.mk (String.mk cs) [] none [])

/-- Cell of a row at a column (pandas `row[col]`), `none` when the column is
NaN for this row. -/
def clookup (row : List (String × Cell)) (k : String) : Option Cell :=
  (row.find? (fun kv => kv.1 = k)).map (fun kv => kv.2)

/-- Concrete export tree with a single Record whose `type` contains
`HKDataType` in the middle rather than as a leading marker. -/
def exRoot1 : Elem :=
  Elem.mk "HealthData" [] none
    [Elem.mk "Record" [("type", "AHKDataTypeB"), ("value", "1")] none []]

/-- Concrete Workout whose only WorkoutRoute sits inside a WorkoutActivity
and whose activity type contains the marker in the middle. -/
def exW5 : Elem :=
  Elem.mk "Workout" [("workoutActivityType", "AHKWorkoutActivityTypeB")] none
    [Elem.mk "WorkoutActivity" [] none
      [Elem.mk "WorkoutRoute" [] none
        [Elem.mk "FileReference" [("path", "/p.gpx")] none []]]]

/-- Concrete export tree with one Workout containing a WorkoutActivity. -/
def exRoot4 : Elem :=
  Elem.mk "HealthData" [] none
    [Elem.mk "Workout" [("workoutActivityType", "HKWorkoutActivityTypeRunning")] none
      [Elem.mk "WorkoutActivity" [] none []]]

/-- Concrete GPX tree with a single fully-populated track point. -/
def gpx1 : Elem :=
  Elem.mk "gpx" [] none
    [Elem.mk "trk" [] none
      [Elem.mk "trkseg" [] none
        [Elem.mk "trkpt" [("lat", "1"), ("lon", "2")] none
          [Elem.mk "ele" [] (some "3") [],
           Elem.mk "time" [] (some "t0") [],
           Elem.mk "extensions" [] none
             [Elem.mk "speed" [] (some "4") [],
              Elem.mk "course" [] (some "5") [],
              Elem.mk "hAcc" [] (some "6") [],
              Elem.mk "vAcc" [] (some "7") []]]]]]


/-- The quantity tables produced from `exRoot1` with an all-accepting date
parser and an all-rejecting numeric parser. -/
def exTables1 : List (String × Table) :=
  [("AB", ⟨["type", "value"],
    [[("type", Cell.str "AHKDataTypeB"), ("value", Cell.str "1")]]⟩)]


/-- A datetime parser that rejects everything (used in counterexamples). -/
def failDT : String → Option Int := fun _ => none

/-- Concrete export tree with a Record carrying an unparseable date column. -/
def exRoot2 : Elem :=
  Elem.mk "HealthData" [] none
    [Elem.mk "Record" [("type", "X"), ("startDate", "bad")] none []]


/-- Concrete export tree with one Workout and no WorkoutActivity. -/
def exRoot4b : Elem :=
  Elem.mk "HealthData" [] none
    [Elem.mk "Workout" [("workoutActivityType", "HKWorkoutActivityTypeRunning")] none []]


/-- Concrete fully-featured Workout: attributes, a metadata entry, a
WorkoutActivity child, a statistics element and a surviving WorkoutRoute. -/
def exW5b : Elem :=
  Elem.mk "Workout"
    [("workoutActivityType", "HKWorkoutActivityTypeRunning"), ("duration", "30")] none
    [Elem.mk "MetadataEntry" [("key", "HKTimeZone"), ("value", "X")] none [],
     Elem.mk "WorkoutActivity" [] none [],
     Elem.mk "WorkoutStatistics"
       [("type", "HKQuantityTypeIdentifierHeartRate"), ("average", "100")] none [],
     Elem.mk "WorkoutRoute" [] none
       [Elem.mk "FileReference" [("path", "/p.gpx")] none []]]

/-- The row dict produced from `exW5b`. -/
def exRow5b : Dict :=
  [("workoutActivityType", "HKWorkoutActivityTypeRunning"), ("duration", "30"),
   ("HKTimeZone", "X"), ("HeartRate_average", "100"), ("route_file_reference", "/p.gpx")]


/-- Concrete route-file list with one GPX file under a POSIX-style path. -/
def exFiles6 : List (String × Elem) := [("workout-routes/r1.gpx", gpx1)]

/-- The track-point rows produced from `exFiles6`. -/
def exRows6 : List TrkptRow :=
  [⟨"workout-routes/r1", "1", "2", some "3", some "t0", some "4", some "5",
    some "6", some "7"⟩]

/-- The route table produced from `exFiles6` with an all-accepting date
parser and an all-rejecting numeric parser. -/
def exTable6 : Table :=
  ⟨["route_id", "lat", "lon", "ele", "time", "speed", "course", "hAcc", "vAcc"],
    [[("route_id", Cell.str "workout-routes/r1"), ("lat", Cell.str "1"),
      ("lon", Cell.str "2"), ("ele", Cell.str "3"), ("time", Cell.dt 0),
      ("speed", Cell.str "4"), ("course", Cell.str "5"), ("hAcc", Cell.str "6"),
      ("vAcc", Cell.str "7")]]⟩


theorem elemBeq_correct :
    ∀ (n : Nat),
      (∀ a b : Elem, sizeOf a ≤ n → (elemBeq a b = true ↔ a = b)) ∧
      (∀ as bs : List Elem, sizeOf as ≤ n → (elemsBeq as bs = true ↔ as = bs)) := by
  intro n
  induction n using Nat.strong_induction_on with
  | _ n ih =>
    constructor
    · intro a b hn
      match a, b with
      | .mk t at' x cs, .mk t' a' x' cs' =>
        simp only [elemBeq, Bool.and_eq_true, decide_eq_true_eq, Elem.mk.injEq]
        have hsz : sizeOf cs < n := by
          have : sizeOf cs < sizeOf (Elem.mk t at' x cs) := by
            simp only [Elem.mk.sizeOf_spec]; omega
          omega
        have := (ih (sizeOf cs) hsz).2 cs cs' (Nat.le_refl _)
        tauto
    · intro as bs hn
      match as, bs with
      | [], [] => simp [elemsBeq]
      | [], _ :: _ => simp [elemsBeq]
      | _ :: _, [] => simp [elemsBeq]
      | c :: cs, c' :: cs' =>
        simp only [elemsBeq, Bool.and_eq_true, List.cons.injEq]
        have h1 : sizeOf c < n := by
          have : sizeOf c < sizeOf (c :: cs) := by
            simp only [List.cons.sizeOf_spec]; omega
          omega
        have h2 : sizeOf cs < n := by
          have : sizeOf cs < sizeOf (c :: cs) := by
            simp only [List.cons.sizeOf_spec]; omega
          omega
        have hc := (ih (sizeOf c) h1).1 c c' (Nat.le_refl _)
        have hcs := (ih (sizeOf cs) h2).2 cs cs' (Nat.le_refl _)
        tauto

instance : DecidableEq Elem := fun a b =>
  decidable_of_iff (elemBeq a b = true) ((elemBeq_correct (sizeOf a)).1 a b (Nat.le_refl _))

theorem elemBeq_iff (a b : Elem) : elemBeq a b = true ↔ a = b :=
  (elemBeq_correct (sizeOf a)).1 a b (Nat.le_refl _)

theorem removeFirst_sublist {x : Elem} :
    ∀ {l l' : List Elem}, removeFirst x l = some l' → List.Sublist l' l := by
  intro l
  induction l with
  | nil => intro l' h; simp [removeFirst] at h
  | cons c rest ih =>
    intro l' h
    simp only [removeFirst] at h
    by_cases hc : elemBeq c x = true
    · rw [if_pos hc] at h
      simp only [Option.some.injEq] at h
      subst h
      exact List.sublist_cons_self c rest
    · rw [if_neg hc] at h
      cases hrm : removeFirst x rest with
      | none => rw [hrm] at h; simp at h
      | some r =>
        rw [hrm] at h
        simp only [Option.map, Option.some.injEq] at h
        subst h
        exact List.Sublist.cons₂ c (ih hrm)

theorem removeAll_sublist :
    ∀ (xs : List Elem) {cs cs' : List Elem}, removeAll xs cs = some cs' → List.Sublist cs' cs := by
  intro xs
  induction xs with
  | nil => intro cs cs' h; simp [removeAll, foldMO] at h; simp [h]
  | cons x rest ih =>
    intro cs cs' h
    simp only [removeAll, foldMO] at h
    cases hx : removeFirst x cs with
    | none => rw [hx] at h; simp at h
    | some mid =>
      rw [hx] at h
      exact (ih h).trans (removeFirst_sublist hx)

theorem elemsSize_cons (e : Elem) (rest : List Elem) :
    elemsSize (e :: rest) = 2 + elemsSize e.children + elemsSize rest := by
  cases e
  simp only [elemsSize, elemSizeL, elemSizeE, Elem.children]
  omega

theorem elemsSize_pos : ∀ l : List Elem, 1 ≤ elemsSize l := by
  intro l
  match l with
  | [] => simp [elemsSize, elemSizeL]
  | c :: rest =>
    simp only [elemsSize, elemSizeL]
    omega

theorem sublist_elemsSize_le :
    ∀ {l₁ l₂ : List Elem}, List.Sublist l₁ l₂ → elemsSize l₁ ≤ elemsSize l₂ := by
  intro l₁ l₂ h
  induction h with
  | slnil => exact Nat.le_refl _
  | cons a _ ih =>
    rw [elemsSize_cons]
    omega
  | cons₂ a _ ih =>
    rw [elemsSize_cons, elemsSize_cons]
    omega

theorem mapMO_some_length {α β : Type} {f : α → Option β} :
    ∀ {l : List α} {bs : List β}, mapMO f l = some bs → bs.length = l.length := by
  intro l
  induction l with
  | nil => intro bs h; simp [mapMO] at h; simp [← h]
  | cons a rest ih =>
    intro bs h
    simp only [mapMO] at h
    cases hf : f a with
    | none => rw [hf] at h; simp at h
    | some b =>
      rw [hf] at h
      cases hr : mapMO f rest with
      | none => rw [hr] at h; simp at h
      | some bs' =>
        rw [hr] at h
        simp only [Option.some.injEq] at h
        subst h
        simp [ih hr]

theorem mapMO_mem {α β : Type} {f : α → Option β} :
    ∀ {l : List α} {bs : List β}, mapMO f l = some bs →
      ∀ b ∈ bs, ∃ a ∈ l, f a = some b := by
  intro l
  induction l with
  | nil =>
    intro bs h
    simp only [mapMO, Option.some.injEq] at h
    subst h
    intro b hb
    simp at hb
  | cons a rest ih =>
    intro bs h
    simp only [mapMO] at h
    cases hf : f a with
    | none => rw [hf] at h; simp at h
    | some b0 =>
      rw [hf] at h
      cases hr : mapMO f rest with
      | none => rw [hr] at h; simp at h
      | some bs' =>
        rw [hr] at h
        simp only [Option.some.injEq] at h
        subst h
        intro b hb
        rcases List.mem_cons.mp hb with hb | hb
        · exact ⟨a, List.mem_cons_self a rest, hb ▸ hf⟩
        · obtain ⟨a', ha', hfa'⟩ := ih hr b hb
          exact ⟨a', List.mem_cons_of_mem a ha', hfa'⟩

theorem mapMO_isSome {α β : Type} {f : α → Option β} :
    ∀ {l : List α}, (mapMO f l).isSome = true ↔ ∀ a ∈ l, (f a).isSome = true := by
  intro l
  induction l with
  | nil => simp [mapMO]
  | cons a rest ih =>
    simp only [mapMO]
    constructor
    · intro h a' ha'
      cases hf : f a with
      | none => rw [hf] at h; simp at h
      | some b =>
        rw [hf] at h
        cases hr : mapMO f rest with
        | none => rw [hr] at h; simp at h
        | some bs =>
          rcases List.mem_cons.mp ha' with h' | h'
          · simp [h', hf]
          · exact (ih.mp (by simp [hr])) a' h'
    · intro h
      cases hf : f a with
      | none => exact absurd (h a (List.mem_cons_self a rest)) (by simp [hf])
      | some b =>
        cases hr : mapMO f rest with
        | none =>
          have hall : ∀ a' ∈ rest, (f a').isSome = true := fun a' ha' =>
            h a' (List.mem_cons_of_mem a ha')
          have := ih.mpr hall
          rw [hr] at this
          simp at this
        | some bs => simp

theorem mapMO_fst {α β : Type} {f : String × α → Option (String × β)} :
    (∀ g b, f g = some b → b.1 = g.1) →
    ∀ {gs : List (String × α)} {ts : List (String × β)}, mapMO f gs = some ts →
      ts.map Prod.fst = gs.map Prod.fst := by
  intro hf gs
  induction gs with
  | nil => intro ts h; simp [mapMO] at h; simp [← h]
  | cons g rest ih =>
    intro ts h
    simp only [mapMO] at h
    cases hg : f g with
    | none => rw [hg] at h; simp at h
    | some b =>
      rw [hg] at h
      cases hr : mapMO f rest with
      | none => rw [hr] at h; simp at h
      | some ts' =>
        rw [hr] at h
        simp only [Option.some.injEq] at h
        subst h
        simp [hf g b hg, ih hr]

theorem rlookup_dinsert_self (k v : String) :
    ∀ d : Dict, rlookup (dinsert k v d) k = some v := by
  intro d
  induction d with
  | nil => simp [dinsert, rlookup, List.find?]
  | cons kv rest ih =>
    by_cases h : kv.1 = k
    · cases kv
      simp_all [dinsert, rlookup, List.find?]
    · cases kv with
      | mk k' v' =>
        simp only at h
        simp only [dinsert, if_neg h]
        simp only [rlookup, List.find?] at ih ⊢
        simp [h, ih]

theorem rlookup_dinsert_other {k k' : String} (v : String) (hne : k' ≠ k) :
    ∀ d : Dict, rlookup (dinsert k v d) k' = rlookup d k' := by
  intro d
  induction d with
  | nil => simp [dinsert, rlookup, List.find?, Ne.symm hne]
  | cons kv rest ih =>
    cases kv with
    | mk k0 v0 =>
      by_cases h : k0 = k
      · subst h
        simp only [dinsert, if_pos rfl]
        simp [rlookup, List.find?, Ne.symm hne]
      · simp only [dinsert, if_neg h]
        by_cases h' : k0 = k'
        · simp [rlookup, List.find?, h']
        · simp only [rlookup, List.find?] at ih ⊢
          simp [h', ih]

theorem rlookup_dinsert_isSome (k v k' : String) (d : Dict) :
    (rlookup (dinsert k v d) k').isSome = true ↔ k' = k ∨ (rlookup d k').isSome = true := by
  by_cases h : k' = k
  · subst h
    simp [rlookup_dinsert_self]
  · rw [rlookup_dinsert_other v h]
    simp [h]

theorem rlookup_attrsDict_isSome (k : String) :
    ∀ (l : List (String × String)) (d0 : Dict),
      (rlookup (attrsDict l d0) k).isSome = true ↔
        k ∈ l.map Prod.fst ∨ (rlookup d0 k).isSome = true := by
  intro l
  induction l with
  | nil => intro d0; simp [attrsDict]
  | cons kv rest ih =>
    intro d0
    simp only [attrsDict, List.foldl_cons] at *
    rw [ih (dinsert kv.1 kv.2 d0), rlookup_dinsert_isSome]
    simp only [List.map_cons, List.mem_cons]
    tauto

theorem metaFold_isSome (k : String) :
    ∀ (ms : List Elem) (d d' : Dict), metaFold ms d = some d' →
      ((rlookup d' k).isSome = true ↔
        (∃ m ∈ ms, getAttr m "key" = some k) ∨ (rlookup d k).isSome = true) := by
  intro ms
  induction ms with
  | nil =>
    intro d d' h
    simp only [metaFold, foldMO, Option.some.injEq] at h
    subst h
    simp
  | cons m rest ih =>
    intro d d' h
    simp only [metaFold, foldMO] at h
    cases hk : getAttr m "key" with
    | none => rw [hk] at h; simp [Option.bind] at h
    | some km =>
      rw [hk] at h
      cases hv : getAttr m "value" with
      | none => rw [hv] at h; simp [Option.bind] at h
      | some vm =>
        rw [hv] at h
        simp only [Option.bind, Option.map] at h
        have := ih (dinsert km vm d) d' h
        rw [this, rlookup_dinsert_isSome]
        constructor
        · rintro (⟨m', hm', hkm'⟩ | hk' | hd)
          · exact Or.inl ⟨m', List.mem_cons_of_mem m hm', hkm'⟩
          · exact Or.inl ⟨m, List.mem_cons_self m rest, by rw [hk, hk']⟩
          · exact Or.inr hd
        · rintro (⟨m', hm', hkm'⟩ | hd)
          · rcases List.mem_cons.mp hm' with h' | h'
            · subst h'
              rw [hk] at hkm'
              simp only [Option.some.injEq] at hkm'
              exact Or.inr (Or.inl hkm'.symm)
            · exact Or.inl ⟨m', h', hkm'⟩
          · exact Or.inr (Or.inr hd)

theorem statRowFold_isSome (ty k : String) :
    ∀ (l : List (String × String)) (d : Dict),
      (rlookup (statRowFold ty l d) k).isSome = true ↔
        (∃ kv ∈ l, ¬(kv.1 = "type" ∨ kv.1 = "startDate" ∨ kv.1 = "endDate") ∧
          k = stripStatType ty ++ "_" ++ kv.1) ∨ (rlookup d k).isSome = true := by
  intro l
  induction l with
  | nil => intro d; simp [statRowFold]
  | cons kv rest ih =>
    intro d
    simp only [statRowFold, List.foldl_cons] at ih ⊢
    by_cases hb : kv.1 = "type" ∨ kv.1 = "startDate" ∨ kv.1 = "endDate"
    · rw [if_pos hb]
      rw [ih d]
      constructor
      · rintro (⟨kv', hkv', hP⟩ | hd)
        · exact Or.inl ⟨kv', List.mem_cons_of_mem kv hkv', hP⟩
        · exact Or.inr hd
      · rintro (⟨kv', hkv', hP⟩ | hd)
        · rcases List.mem_cons.mp hkv' with h' | h'
          · subst h'
            exact absurd hb hP.1
          · exact Or.inl ⟨kv', h', hP⟩
        · exact Or.inr hd
    · rw [if_neg hb]
      rw [ih (dinsert (stripStatType ty ++ "_" ++ kv.1) kv.2 d),
        rlookup_dinsert_isSome]
      constructor
      · rintro (⟨kv', hkv', hP⟩ | hk | hd)
        · exact Or.inl ⟨kv', List.mem_cons_of_mem kv hkv', hP⟩
        · exact Or.inl ⟨kv, List.mem_cons_self kv rest, hb, hk⟩
        · exact Or.inr hd
      · rintro (⟨kv', hkv', hP⟩ | hd)
        · rcases List.mem_cons.mp hkv' with h' | h'
          · subst h'
            exact Or.inr (Or.inl hP.2)
          · exact Or.inl ⟨kv', h', hP⟩
        · exact Or.inr (Or.inr hd)

theorem statFold_isSome (k : String) :
    ∀ (sts : List Elem) (d d' : Dict), statFold sts d = some d' →
      ((rlookup d' k).isSome = true ↔
        (∃ st ∈ sts, ∃ ty, getAttr st "type" = some ty ∧
          ∃ kv ∈ st.attrs, ¬(kv.1 = "type" ∨ kv.1 = "startDate" ∨ kv.1 = "endDate") ∧
            k = stripStatType ty ++ "_" ++ kv.1) ∨
        (rlookup d k).isSome = true) := by
  intro sts
  induction sts with
  | nil =>
    intro d d' h
    simp only [statFold, foldMO, Option.some.injEq] at h
    subst h
    simp
  | cons st rest ih =>
    intro d d' h
    simp only [statFold, foldMO] at h
    cases hty : getAttr st "type" with
    | none => rw [hty] at h; simp [Option.map] at h
    | some ty =>
      rw [hty] at h
      simp only [Option.map] at h
      have hrec := ih (statRowFold ty st.attrs d) d' h
      rw [hrec, statRowFold_isSome]
      constructor
      · rintro (⟨st', hst', hP⟩ | ⟨kv, hkv, hP⟩ | hd)
        · exact Or.inl ⟨st', List.mem_cons_of_mem st hst', hP⟩
        · exact Or.inl ⟨st, List.mem_cons_self st rest, ty, hty, kv, hkv, hP⟩
        · exact Or.inr hd
      · rintro (⟨st', hst', ty', hty', kv, hkv, hP⟩ | hd)
        · rcases List.mem_cons.mp hst' with h' | h'
          · subst h'
            rw [hty] at hty'
            simp only [Option.some.injEq] at hty'
            subst hty'
            exact Or.inr (Or.inl ⟨kv, hkv, hP⟩)
          · exact Or.inl ⟨st', h', ty', hty', kv, hkv, hP⟩
        · exact Or.inr (Or.inr hd)

theorem routeStep_isSome (w' : Elem) (d d' : Dict) (k : String) (h : routeStep w' d = some d') :
    (rlookup d' k).isSome = true ↔
      (k = "route_file_reference" ∧ (w'.findFirst "WorkoutRoute").isSome = true) ∨
      (rlookup d k).isSome = true := by
  cases hr : w'.findFirst "WorkoutRoute" with
  | none =>
    simp only [routeStep, hr, Option.some.injEq] at h
    subst h
    simp [hr]
  | some r =>
    simp only [routeStep, hr] at h
    cases hfr : r.findFirst "FileReference" with
    | none => rw [hfr] at h; simp [Option.bind] at h
    | some fr =>
      rw [hfr] at h
      simp only [Option.bind] at h
      cases hp : getAttr fr "path" with
      | none => rw [hp] at h; simp [Option.map] at h
      | some p =>
        rw [hp] at h
        simp only [Option.map, Option.some.injEq] at h
        subst h
        rw [rlookup_dinsert_isSome]
        simp [hr]

theorem dedupFirst_eq_foldl {α : Type} [DecidableEq α] (l : List α) :
    dedupFirst l = l.foldl dedupStep [] := rfl

theorem groupAppend_keys {β : Type} (k : String) (v : β) :
    ∀ g : List (String × List β),
      (groupAppend k v g).map Prod.fst = dedupStep (g.map Prod.fst) k := by
  intro g
  induction g with
  | nil => simp [groupAppend, dedupStep]
  | cons kv rest ih =>
    cases kv with
    | mk k' vs =>
      by_cases h : k' = k
      · subst h
        simp [groupAppend, dedupStep]
      · simp only [groupAppend, if_neg h, List.map_cons, ih, dedupStep]
        by_cases hmem : k ∈ rest.map Prod.fst
        · simp [hmem, h, Ne.symm h]
        · simp [hmem, h, Ne.symm h]

theorem mem_foldl_dedupStep {α : Type} [DecidableEq α] (x : α) :
    ∀ (l acc : List α), x ∈ l.foldl dedupStep acc ↔ x ∈ acc ∨ x ∈ l := by
  intro l
  induction l with
  | nil => intro acc; simp
  | cons k rest ih =>
    intro acc
    simp only [List.foldl_cons, ih, dedupStep]
    by_cases h : k ∈ acc
    · simp only [if_pos h, List.mem_cons]
      constructor
      · rintro (hx | hx)
        · exact Or.inl hx
        · exact Or.inr (Or.inr hx)
      · rintro (hx | hx | hx)
        · exact Or.inl hx
        · exact Or.inl (hx ▸ h)
        · exact Or.inr hx
    · simp only [if_neg h, List.mem_append, List.mem_singleton, List.mem_cons]
      tauto

theorem nodup_foldl_dedupStep {α : Type} [DecidableEq α] :
    ∀ (l acc : List α), acc.Nodup → (l.foldl dedupStep acc).Nodup := by
  intro l
  induction l with
  | nil => intro acc h; simpa
  | cons k rest ih =>
    intro acc h
    simp only [List.foldl_cons, dedupStep]
    by_cases hk : k ∈ acc
    · rw [if_pos hk]
      exact ih acc h
    · rw [if_neg hk]
      refine ih _ ?_
      simp [List.nodup_append, h, hk]

theorem mem_dedupFirst {α : Type} [DecidableEq α] (x : α) (l : List α) :
    x ∈ dedupFirst l ↔ x ∈ l := by
  rw [dedupFirst_eq_foldl, mem_foldl_dedupStep]
  simp

theorem nodup_dedupFirst {α : Type} [DecidableEq α] (l : List α) :
    (dedupFirst l).Nodup := by
  rw [dedupFirst_eq_foldl]
  exact nodup_foldl_dedupStep l [] List.nodup_nil

theorem quantityGroups_keys_aux :
    ∀ (records : List Elem) (g gs : List (String × List Dict)),
      foldMO (fun acc r => (getAttr r "type").map
          (fun ty => groupAppend (stripQuantityType ty) (recordRow r) acc)) g records =
        some gs →
      gs.map Prod.fst =
        (records.filterMap (fun r => (getAttr r "type").map stripQuantityType)).foldl
          dedupStep (g.map Prod.fst) := by
  intro records
  induction records with
  | nil =>
    intro g gs h
    simp only [foldMO, Option.some.injEq] at h
    subst h
    simp
  | cons r rest ih =>
    intro g gs h
    simp only [foldMO] at h
    cases hty : getAttr r "type" with
    | none => rw [hty] at h; simp [Option.map] at h
    | some ty =>
      rw [hty] at h
      simp only [Option.map] at h
      have := ih (groupAppend (stripQuantityType ty) (recordRow r) g) gs h
      rw [this, groupAppend_keys]
      simp [List.filterMap_cons, hty]

theorem quantityGroups_keys {root : Elem} {gs : List (String × List Dict)}
    (h : quantityGroups root = some gs) :
    gs.map Prod.fst = dedupFirst ((root.findall "Record").filterMap
      (fun r => (getAttr r "type").map stripQuantityType)) := by
  rw [dedupFirst_eq_foldl]
  simpa using quantityGroups_keys_aux (root.findall "Record") [] gs h

theorem mkTable_rows_str {rows : List Dict} :
    ∀ row ∈ (mkTable rows).rows, ∀ kv ∈ row, ∃ s, kv.2 = Cell.str s := by
  intro row hrow kv hkv
  simp only [mkTable, List.mem_map] at hrow
  obtain ⟨raw, _, hmap⟩ := hrow
  subst hmap
  simp only [List.mem_map] at hkv
  obtain ⟨kv0, _, hkv0⟩ := hkv
  exact ⟨kv0.2, by rw [← hkv0]⟩

theorem mem_collectCols_aux :
    ∀ (rows : List Dict) (acc : List String),
      (∀ x ∈ acc, x ∈ rows.foldl
        (fun a row => row.foldl (fun a kv => if kv.1 ∈ a then a else a ++ [kv.1]) a) acc) ∧
      (∀ row ∈ rows, ∀ kv ∈ row, kv.1 ∈ rows.foldl
        (fun a row => row.foldl (fun a kv => if kv.1 ∈ a then a else a ++ [kv.1]) a) acc) := by
  intro rows
  induction rows with
  | nil => intro acc; simp
  | cons row rest ih =>
    intro acc
    simp only [List.foldl_cons]
    have hrowacc : ∀ (rw : Dict) (a : List String), ∀ x ∈ a,
        x ∈ rw.foldl (fun a kv => if kv.1 ∈ a then a else a ++ [kv.1]) a := by
      intro rw
      induction rw with
      | nil => intro a x hx; simpa
      | cons kv rest' ih' =>
        intro a x hx
        simp only [List.foldl_cons]
        refine ih' _ x ?_
        by_cases h : kv.1 ∈ a
        · simpa [h]
        · simp [h, hx]
    have hrowmem : ∀ (rw : Dict) (a : List String), ∀ kv ∈ rw,
        kv.1 ∈ rw.foldl (fun a kv => if kv.1 ∈ a then a else a ++ [kv.1]) a := by
      intro rw
      induction rw with
      | nil => intro a kv hkv; simp at hkv
      | cons kv0 rest' ih' =>
        intro a kv hkv
        simp only [List.foldl_cons]
        rcases List.mem_cons.mp hkv with h | h
        · subst h
          refine hrowacc rest' _ kv.1 ?_
          by_cases hm : kv.1 ∈ a
          · simp [hm]
          · simp [hm]
        · exact ih' _ kv h
    constructor
    · intro x hx
      exact (ih _).1 x (hrowacc row acc x hx)
    · intro row' hrow' kv hkv
      rcases List.mem_cons.mp hrow' with h | h
      · subst h
        exact (ih _).1 kv.1 (hrowmem row' acc kv hkv)
      · exact (ih _).2 row' h kv hkv

theorem mem_collectCols {rows : List Dict} {row : Dict} {kv : String × String}
    (hrow : row ∈ rows) (hkv : kv ∈ row) : kv.1 ∈ collectCols rows :=
  (mem_collectCols_aux rows []).2 row hrow kv hkv

theorem clookup_cons (kv : String × Cell) (rest : List (String × Cell)) (k : String) :
    clookup (kv :: rest) k = if kv.1 = k then some kv.2 else clookup rest k := by
  by_cases h : kv.1 = k
  · simp [clookup, List.find?, h]
  · simp [clookup, List.find?, h]

theorem coerceDateCols_unpack {isCol : String → Bool} {toDT : String → Option Int}
    {t t' : Table} (h : coerceDateCols isCol toDT t = some t') :
    ∃ rows', mapMO (fun row => mapMO (fun kv =>
        if isCol kv.1 then (coerceCellDT toDT kv.2).map (fun c => (kv.1, c)) else some kv) row)
      t.rows = some rows' ∧ t' = ⟨t.cols, rows'⟩ := by
  simp only [coerceDateCols] at h
  cases hm : mapMO (fun row => mapMO (fun kv =>
      if isCol kv.1 then (coerceCellDT toDT kv.2).map (fun c => (kv.1, c)) else some kv) row)
    t.rows with
  | none => rw [hm] at h; simp [Option.map] at h
  | some rows' =>
    rw [hm] at h
    simp only [Option.map, Option.some.injEq] at h
    exact ⟨rows', rfl, h.symm⟩

theorem mapMO_cons_some {α β : Type} {f : α → Option β} {a : α} {l : List α} {bs : List β}
    (h : mapMO f (a :: l) = some bs) :
    ∃ b bs', f a = some b ∧ mapMO f l = some bs' ∧ bs = b :: bs' := by
  simp only [mapMO] at h
  cases hf : f a with
  | none => rw [hf] at h; simp at h
  | some b =>
    rw [hf] at h
    cases hl : mapMO f l with
    | none => rw [hl] at h; simp at h
    | some bs' =>
      rw [hl] at h
      simp only [Option.some.injEq] at h
      exact ⟨b, bs', rfl, rfl, h.symm⟩

theorem coerceCellDT_str (toDT : String → Option Int) (s : String) :
    coerceCellDT toDT (Cell.str s) = (toDT s).map Cell.dt := rfl

theorem rowDT_cells {isCol : String → Bool} {toDT : String → Option Int} :
    ∀ {row row' : List (String × Cell)},
      (∀ kv ∈ row, ∃ s, kv.2 = Cell.str s) →
      mapMO (fun kv => if isCol kv.1 then (coerceCellDT toDT kv.2).map (fun c => (kv.1, c))
        else some kv) row = some row' →
      ∀ kv' ∈ row', (isCol kv'.1 = true → ∃ n, kv'.2 = Cell.dt n) ∧
        (isCol kv'.1 = false → kv' ∈ row) := by
  intro row
  induction row with
  | nil =>
    intro row' hstr h
    simp only [mapMO, Option.some.injEq] at h
    subst h
    simp
  | cons kv rest ih =>
    intro row' hstr h
    obtain ⟨b, rest', hf, hrest, hbs⟩ := mapMO_cons_some h
    subst hbs
    have hrec := fun kv' h' =>
      ih (fun kv0 hkv0 => hstr kv0 (List.mem_cons_of_mem kv hkv0)) hrest kv' h'
    intro kv' hkv'
    rcases List.mem_cons.mp hkv' with h' | h'
    · subst h'
      by_cases hc : isCol kv.1 = true
      · rw [if_pos hc] at hf
        obtain ⟨s, hs⟩ := hstr kv (List.mem_cons_self kv rest)
        rw [hs, coerceCellDT_str] at hf
        cases hdt : toDT s with
        | none => rw [hdt] at hf; simp at hf
        | some n =>
          rw [hdt] at hf
          simp only [Option.map_some', Option.some.injEq] at hf
          constructor
          · intro _
            exact ⟨n, by rw [← hf]⟩
          · intro hfalse
            rw [← hf] at hfalse
            simp only at hfalse
            rw [hc] at hfalse
            cases hfalse
      · rw [if_neg hc] at hf
        simp only [Option.some.injEq] at hf
        subst hf
        constructor
        · intro htrue; exact absurd htrue hc
        · intro _; exact List.mem_cons_self kv rest
    · have := hrec kv' h'
      exact ⟨this.1, fun hf' => List.mem_cons_of_mem kv (this.2 hf')⟩

theorem rowDT_clookup {isCol : String → Bool} {toDT : String → Option Int} {k : String}
    (hk : isCol k = false) :
    ∀ {row row' : List (String × Cell)},
      mapMO (fun kv => if isCol kv.1 then (coerceCellDT toDT kv.2).map (fun c => (kv.1, c))
        else some kv) row = some row' →
      clookup row' k = clookup row k := by
  intro row
  induction row with
  | nil =>
    intro row' h
    simp only [mapMO, Option.some.injEq] at h
    subst h
    rfl
  | cons kv rest ih =>
    intro row' h
    obtain ⟨b, rest', hf, hrest, hbs⟩ := mapMO_cons_some h
    subst hbs
    by_cases hc : isCol kv.1 = true
    · rw [if_pos hc] at hf
      cases hdt : coerceCellDT toDT kv.2 with
      | none => rw [hdt] at hf; simp at hf
      | some c =>
        rw [hdt] at hf
        simp only [Option.map_some', Option.some.injEq] at hf
        have hne : kv.1 ≠ k := fun he => by rw [he, hk] at hc; cases hc
        rw [← hf, clookup_cons, clookup_cons, if_neg hne]
        simp only [if_neg hne]
        exact ih hrest
    · rw [if_neg hc] at hf
      simp only [Option.some.injEq] at hf
      subst hf
      rw [clookup_cons, clookup_cons]
      by_cases he : kv.1 = k
      · simp [he]
      · rw [if_neg he, if_neg he]
        exact ih hrest

theorem clookup_map_numcol_ne {c k : String} (hck : c ≠ k) (toNum : String → Option Rat) :
    ∀ row : List (String × Cell),
      clookup (row.map (fun kv => if kv.1 = c then (kv.1, coerceNumCell toNum kv.2) else kv)) k
        = clookup row k := by
  intro row
  induction row with
  | nil => rfl
  | cons kv rest ih =>
    simp only [List.map_cons]
    by_cases h : kv.1 = c
    · have hne : kv.1 ≠ k := by rw [h]; exact hck
      rw [if_pos h, clookup_cons, clookup_cons]
      simp only [if_neg hne]
      exact ih
    · rw [if_neg h, clookup_cons, clookup_cons]
      by_cases h2 : kv.1 = k
      · simp [h2]
      · rw [if_neg h2, if_neg h2]
        exact ih

theorem coerceNumCol_clookup_ne {c k : String} (hck : c ≠ k) (toNum : String → Option Rat)
    (t : Table) :
    (coerceNumCol c toNum t).rows.map (fun r => clookup r k)
      = t.rows.map (fun r => clookup r k) := by
  simp only [coerceNumCol]
  split
  · simp only [List.map_map]
    exact List.map_congr_left (fun row _ => clookup_map_numcol_ne hck toNum row)
  · rfl

theorem foldl_coerceNumCol_clookup {k : String} (toNum : String → Option Rat) :
    ∀ (cols : List String) (t : Table), (∀ c ∈ cols, c ≠ k) →
      (cols.foldl (fun t c => coerceNumCol c toNum t) t).rows.map (fun r => clookup r k)
        = t.rows.map (fun r => clookup r k) := by
  intro cols
  induction cols with
  | nil => intro t _; rfl
  | cons c rest ih =>
    intro t h
    simp only [List.foldl_cons]
    rw [ih _ (fun c' hc' => h c' (List.mem_cons_of_mem c hc')),
      coerceNumCol_clookup_ne (h c (List.mem_cons_self c rest)) toNum t]

theorem coerceNumCol_length (c : String) (toNum : String → Option Rat) (t : Table) :
    (coerceNumCol c toNum t).rows.length = t.rows.length := by
  simp only [coerceNumCol]
  split
  · simp
  · rfl

theorem foldl_coerceNumCol_length :
    ∀ (cols : List String) (toNum : String → Option Rat) (t : Table),
      ((cols.foldl (fun t c => coerceNumCol c toNum t) t).rows.length = t.rows.length) := by
  intro cols
  induction cols with
  | nil => intro toNum t; rfl
  | cons c rest ih =>
    intro toNum t
    simp only [List.foldl_cons]
    rw [ih toNum _, coerceNumCol_length]

theorem coerceNumCol_rows_cases (c : String) (toNum : String → Option Rat) (t : Table) :
    (coerceNumCol c toNum t).rows = t.rows ∨
    (coerceNumCol c toNum t).rows = t.rows.map (fun row => row.map (fun kv =>
      if kv.1 = c then (kv.1, coerceNumCell toNum kv.2) else kv)) := by
  simp only [coerceNumCol]
  split
  · exact Or.inr rfl
  · exact Or.inl rfl

theorem coerceNumCol_value_cases (toNum : String → Option Rat) (t : Table)
    (hstr : ∀ row ∈ t.rows, ∀ kv ∈ row, kv.1 = "value" → ∃ s, kv.2 = Cell.str s)
    (hcols : ∀ row ∈ t.rows, ∀ kv ∈ row, kv.1 ∈ t.cols) :
    (∀ row ∈ (coerceNumCol "value" toNum t).rows, ∀ kv ∈ row, kv.1 = "value" →
        ∃ q, kv.2 = Cell.num q) ∨
    (∃ row ∈ (coerceNumCol "value" toNum t).rows, ∃ s, ("value", Cell.str s) ∈ row ∧
        toNum s = none) ∨
    (∀ row ∈ (coerceNumCol "value" toNum t).rows, ∀ kv ∈ row, kv.1 ≠ "value") := by
  by_cases hg : (t.cols.contains "value" &&
      t.rows.all (fun row => row.all (fun kv => (kv.1 != "value") || cellNumOk toNum kv.2)))
      = true
  · left
    intro row hrow kv hkv hval
    simp only [coerceNumCol, if_pos hg, List.mem_map] at hrow
    obtain ⟨row0, hrow0, hmap⟩ := hrow
    subst hmap
    simp only [List.mem_map] at hkv
    obtain ⟨kv0, hkv0, hkv0map⟩ := hkv
    by_cases h0 : kv0.1 = "value"
    · rw [if_pos h0] at hkv0map
      obtain ⟨s, hs⟩ := hstr row0 hrow0 kv0 hkv0 h0
      have hg' := hg
      simp only [Bool.and_eq_true, List.all_eq_true] at hg'
      have hok : ((kv0.1 != "value") || cellNumOk toNum kv0.2) = true :=
        hg'.2 row0 hrow0 kv0 hkv0
      rw [h0] at hok
      simp only [bne_self_eq_false, Bool.false_or] at hok
      rw [hs] at hok
      simp only [cellNumOk] at hok
      obtain ⟨q, hq⟩ := Option.isSome_iff_exists.mp hok
      refine ⟨q, ?_⟩
      rw [← hkv0map]
      simp [hs, coerceNumCell, hq]
    · rw [if_neg h0] at hkv0map
      rw [← hkv0map] at hval
      exact absurd hval h0
  · by_cases hc : t.cols.contains "value" = true
    · right; left
      have hnall : ¬ (t.rows.all (fun row => row.all (fun kv =>
          (kv.1 != "value") || cellNumOk toNum kv.2))) = true := by
        intro hall
        exact hg (by rw [hc, hall]; rfl)
      simp only [List.all_eq_true] at hnall
      push_neg at hnall
      obtain ⟨row, hrow, hbadrow⟩ := hnall
      obtain ⟨kv, hkv, hbad⟩ := hbadrow
      simp only [Bool.not_eq_true, Bool.or_eq_false_iff, bne_eq_false_iff_eq] at hbad
      have hval : kv.1 = "value" := hbad.1
      obtain ⟨s, hs⟩ := hstr row hrow kv hkv hval
      have hnum : toNum s = none := by
        have h2 := hbad.2
        rw [hs] at h2
        simp only [cellNumOk] at h2
        exact Option.not_isSome_iff_eq_none.mp (by simp [h2])
      have hrows : (coerceNumCol "value" toNum t).rows = t.rows := by
        simp only [coerceNumCol]
        rw [if_neg hg]
      refine ⟨row, ?_, s, ?_, hnum⟩
      · rw [hrows]; exact hrow
      · have : kv = ("value", Cell.str s) := by
          have hp : kv = (kv.1, kv.2) := rfl
          rw [hp, hval, hs]
        rw [← this]
        exact hkv
    · right; right
      intro row hrow kv hkv hval
      have hrows : (coerceNumCol "value" toNum t).rows = t.rows := by
        simp only [coerceNumCol]
        rw [if_neg hg]
      rw [hrows] at hrow
      have := hcols row hrow kv hkv
      rw [hval] at this
      exact hc (by simpa using this)

theorem rowDT_step_fst {toDT : String → Option Int} {isCol : String → Bool} :
    ∀ (kv : String × Cell) (b : String × Cell),
      (if isCol kv.1 then (coerceCellDT toDT kv.2).map (fun c => (kv.1, c)) else some kv)
        = some b → b.1 = kv.1 := by
  intro kv b hb
  by_cases hc : isCol kv.1 = true
  · rw [if_pos hc] at hb
    cases hdt : coerceCellDT toDT kv.2 with
    | none => rw [hdt] at hb; simp at hb
    | some c =>
      rw [hdt] at hb
      simp only [Option.map_some', Option.some.injEq] at hb
      rw [← hb]
  · rw [if_neg hc] at hb
    simp only [Option.some.injEq] at hb
    rw [← hb]

theorem quantityTable_cells {toDT : String → Option Int} {raws : List Dict} {t1 : Table}
    (h1 : coerceDateCols isDateCol toDT (mkTable raws) = some t1) :
    (∀ row ∈ t1.rows, ∀ kv ∈ row,
      (isDateCol kv.1 = true → ∃ n, kv.2 = Cell.dt n) ∧
      (isDateCol kv.1 = false → ∃ s, kv.2 = Cell.str s)) ∧
    (∀ row ∈ t1.rows, ∀ kv ∈ row, kv.1 ∈ t1.cols) := by
  obtain ⟨rows', hm, ht⟩ := coerceDateCols_unpack h1
  subst ht
  constructor
  · intro row' hrow' kv' hkv'
    obtain ⟨row, hrow, hstep⟩ := mapMO_mem hm row' hrow'
    have hstr : ∀ kv ∈ row, ∃ s, kv.2 = Cell.str s := fun kv hkv =>
      mkTable_rows_str row hrow kv hkv
    have hmain := rowDT_cells hstr hstep kv' hkv'
    refine ⟨hmain.1, fun hf => ?_⟩
    exact hstr kv' (hmain.2 hf)
  · intro row' hrow' kv' hkv'
    obtain ⟨row, hrow, hstep⟩ := mapMO_mem hm row' hrow'
    have hfst : row'.map Prod.fst = row.map Prod.fst :=
      mapMO_fst (fun kv b hb => rowDT_step_fst kv b hb) hstep
    have hk' : kv'.1 ∈ row.map Prod.fst := by
      rw [← hfst]
      exact List.mem_map_of_mem Prod.fst hkv'
    simp only [mkTable, List.mem_map] at hrow
    obtain ⟨raw, hraw, hrawmap⟩ := hrow
    rw [← hrawmap] at hk'
    simp only [List.map_map, List.mem_map] at hk'
    obtain ⟨kv0, hkv0, hkv0eq⟩ := hk'
    have : kv0.1 ∈ collectCols raws := mem_collectCols hraw hkv0
    simp only [Function.comp] at hkv0eq
    rw [← hkv0eq]
    exact this

theorem coerceNumCol_dates (toNum : String → Option Rat) (t1 : Table)
    (hcells : ∀ row ∈ t1.rows, ∀ kv ∈ row, isDateCol kv.1 = true → ∃ n, kv.2 = Cell.dt n) :
    ∀ row ∈ (coerceNumCol "value" toNum t1).rows, ∀ kv ∈ row, isDateCol kv.1 = true →
      ∃ n, kv.2 = Cell.dt n := by
  rcases coerceNumCol_rows_cases "value" toNum t1 with hr | hr <;> rw [hr]
  · exact hcells
  · intro row hrow kv hkv htrue
    simp only [List.mem_map] at hrow
    obtain ⟨row1, hrow1, hmap⟩ := hrow
    subst hmap
    simp only [List.mem_map] at hkv
    obtain ⟨kv1, hkv1, hmap⟩ := hkv
    by_cases h0 : kv1.1 = "value"
    · rw [if_pos h0] at hmap
      rw [← hmap] at htrue
      simp only at htrue
      rw [h0] at htrue
      exact absurd htrue (by decide)
    · rw [if_neg h0] at hmap
      rw [← hmap]
      exact hcells row1 hrow1 kv1 hkv1 (by rw [hmap]; exact htrue)

theorem buildQuantityTables_unpack {toDT : String → Option Int} {toNum : String → Option Rat}
    {root : Elem} {tables : List (String × Table)}
    (h : buildQuantityTables toDT toNum root = some tables) :
    ∃ gs, quantityGroups root = some gs ∧
      mapMO (fun g => (coerceDateCols isDateCol toDT (mkTable g.2)).map
        (fun t => (g.1, coerceNumCol "value" toNum t))) gs = some tables := by
  simp only [buildQuantityTables] at h
  cases hg : quantityGroups root with
  | none => rw [hg] at h; simp [Option.bind] at h
  | some gs =>
    rw [hg] at h
    simp only [Option.bind] at h
    exact ⟨gs, rfl, h⟩

theorem quantityTables_mem {toDT : String → Option Int} {toNum : String → Option Rat}
    {gs : List (String × List Dict)} {tables : List (String × Table)}
    (hm : mapMO (fun g => (coerceDateCols isDateCol toDT (mkTable g.2)).map
        (fun t => (g.1, coerceNumCol "value" toNum t))) gs = some tables) :
    ∀ kt ∈ tables, ∃ raws t1, coerceDateCols isDateCol toDT (mkTable raws) = some t1 ∧
      kt.2 = coerceNumCol "value" toNum t1 := by
  intro kt hkt
  obtain ⟨g, hg, hfg⟩ := mapMO_mem hm kt hkt
  cases hdc : coerceDateCols isDateCol toDT (mkTable g.2) with
  | none => rw [hdc] at hfg; simp at hfg
  | some t1 =>
    rw [hdc] at hfg
    simp only [Option.map_some', Option.some.injEq] at hfg
    exact ⟨g.2, t1, hdc, by rw [← hfg]⟩

/-- C1 (amended): `_build_AHK_quantity_tables` groups every Record under the
key obtained from its `type` attribute by removing every occurrence of
`HKQuantityTypeIdentifier`, `HKCategoryTypeIdentifier` and `HKDataType` (in
that order) — Python `str.replace`, not a strict leading-marker strip —
producing exactly one table per distinct key (in first-seen order, without
duplicates); in every table each column whose name contains `date`
(case-insensitively) is coerced to datetime, and the `value` column is
coerced to numeric exactly when every entry parses, otherwise it is left as
strings (or is absent altogether). -/
theorem C1_quantity_tables (toDT : String → Option Int) (toNum : String → Option Rat)
    (root : Elem) (tables : List (String × Table))
    (h : buildQuantityTables toDT toNum root = some tables) :
    tables.map Prod.fst = dedupFirst ((root.findall "Record").filterMap
        (fun r => (getAttr r "type").map stripQuantityType)) ∧
    (tables.map Prod.fst).Nodup ∧
    (∀ r ∈ root.findall "Record", ∀ ty, getAttr r "type" = some ty →
        stripQuantityType ty ∈ tables.map Prod.fst) ∧
    (∀ kt ∈ tables, ∀ row ∈ kt.2.rows, ∀ kv ∈ row, isDateCol kv.1 = true →
        ∃ n, kv.2 = Cell.dt n) ∧
    (∀ kt ∈ tables,
      (∀ row ∈ kt.2.rows, ∀ kv ∈ row, kv.1 = "value" → ∃ q, kv.2 = Cell.num q) ∨
      (∃ row ∈ kt.2.rows, ∃ s, ("value", Cell.str s) ∈ row ∧ toNum s = none) ∨
      (∀ row ∈ kt.2.rows, ∀ kv ∈ row, kv.1 ≠ "value")) := by
  obtain ⟨gs, hgs, hmap⟩ := buildQuantityTables_unpack h
  have hkeys : tables.map Prod.fst = gs.map Prod.fst := by
    refine mapMO_fst ?_ hmap
    intro g b hb
    cases hdc : coerceDateCols isDateCol toDT (mkTable g.2) with
    | none => rw [hdc] at hb; simp at hb
    | some t1 =>
      rw [hdc] at hb
      simp only [Option.map_some', Option.some.injEq] at hb
      rw [← hb]
  have hkeys' := quantityGroups_keys hgs
  refine ⟨by rw [hkeys, hkeys'], ?_, ?_, ?_, ?_⟩
  · rw [hkeys, hkeys']
    exact nodup_dedupFirst _
  · intro r hr ty hty
    rw [hkeys, hkeys', mem_dedupFirst]
    simp only [List.mem_filterMap]
    exact ⟨r, hr, by rw [hty]; rfl⟩
  · intro kt hkt
    obtain ⟨raws, t1, hdc, hkt2⟩ := quantityTables_mem hmap kt hkt
    rw [hkt2]
    exact coerceNumCol_dates toNum t1
      (fun row hrow kv hkv htrue => ((quantityTable_cells hdc).1 row hrow kv hkv).1 htrue)
  · intro kt hkt
    obtain ⟨raws, t1, hdc, hkt2⟩ := quantityTables_mem hmap kt hkt
    rw [hkt2]
    refine coerceNumCol_value_cases toNum t1 ?_ (quantityTable_cells hdc).2
    intro row hrow kv hkv hval
    refine ((quantityTable_cells hdc).1 row hrow kv hkv).2 ?_
    rw [hval]
    decide

/-- C1 (counterexample): a Record of type `AHKDataTypeB`, where `HKDataType`
is not a leading piece, is grouped under the key `AB` (every occurrence is
removed), not under the prefix-stripped name `AHKDataTypeB` that the claim
prescribes. -/
theorem C1_counterexample :
    (buildQuantityTables constDT failNum exRoot1).map (fun l => l.map Prod.fst)
      = some ["AB"] ∧
    (exRoot1.findall "Record").map (fun r => getAttr r "type") = [some "AHKDataTypeB"] ∧
    specStripQuantityType "AHKDataTypeB" = "AHKDataTypeB" ∧
    "AB" ≠ "AHKDataTypeB" :=
  ⟨by decide, by decide, by decide, by decide⟩

/-- C1 (witness): the amended claim evaluated on a concrete one-record
export tree. -/
theorem C1_witness :
    buildQuantityTables constDT failNum exRoot1 = some exTables1 ∧
    (exTables1.map Prod.fst = dedupFirst ((exRoot1.findall "Record").filterMap
        (fun r => (getAttr r "type").map stripQuantityType)) ∧
    (exTables1.map Prod.fst).Nodup ∧
    (∀ r ∈ exRoot1.findall "Record", ∀ ty, getAttr r "type" = some ty →
        stripQuantityType ty ∈ exTables1.map Prod.fst) ∧
    (∀ kt ∈ exTables1, ∀ row ∈ kt.2.rows, ∀ kv ∈ row, isDateCol kv.1 = true →
        ∃ n, kv.2 = Cell.dt n) ∧
    (∀ kt ∈ exTables1,
      (∀ row ∈ kt.2.rows, ∀ kv ∈ row, kv.1 = "value" → ∃ q, kv.2 = Cell.num q) ∨
      (∃ row ∈ kt.2.rows, ∃ s, ("value", Cell.str s) ∈ row ∧ failNum s = none) ∨
      (∀ row ∈ kt.2.rows, ∀ kv ∈ row, kv.1 ≠ "value"))) :=
  ⟨by decide, C1_quantity_tables constDT failNum exRoot1 exTables1 (by decide)⟩

/-- C2 (amended): the only failure the quantity-table builder swallows is
the numeric conversion of the `value` column — whether it succeeds is
independent of the numeric parser; other failures (a missing `<!DOCTYPE`
marker in the loader, an unparseable date column, a missing `type`
attribute) abort ingestion, as the counterexample shows. -/
theorem C2_value_cast_skipped (toDT : String → Option Int)
    (toNum toNum' : String → Option Rat) (root : Elem) :
    (buildQuantityTables toDT toNum root).isSome
      = (buildQuantityTables toDT toNum' root).isSome := by
  simp only [buildQuantityTables]
  cases hg : quantityGroups root with
  | none => rfl
  | some gs =>
    simp only [Option.bind]
    refine Bool.eq_iff_iff.mpr ?_
    rw [mapMO_isSome, mapMO_isSome]
    constructor <;> intro h g hg' <;> have hh := h g hg' <;>
      simpa [Option.isSome_map'] using hh

/-- C2 (counterexample): ingestion does abort — the loader raises on an
export file with no `<!DOCTYPE` block, and the quantity builder raises when
a date-named column fails to parse, while the very same tree ingests fine
when dates parse (only the `value` cast is best-effort). -/
theorem C2_counterexample :
    loadExportXml parseInj "<a/>".data = none ∧
    buildQuantityTables failDT constNum exRoot2 = none ∧
    (buildQuantityTables constDT constNum exRoot2).isSome = true :=
  ⟨by decide, by decide, by decide⟩

/-- C3 (confirmed): `load_polygon` closes the coordinate ring — if the first
and last coordinates differ the first is appended, so the processed list
always begins and ends with the same vertex, and a list that is already
closed is returned unchanged. -/
theorem C3_load_polygon_closed (c : Rat × Rat) (rest r : List (Rat × Rat))
    (h : load_polygon_ring (c :: rest) = some r) :
    r.head? = r.getLast? ∧
    ((c :: rest).head? = (c :: rest).getLast? → r = c :: rest) ∧
    ((c :: rest).head? ≠ (c :: rest).getLast? → r = (c :: rest) ++ [c]) := by
  cases hlst : (c :: rest).getLast? with
  | none => exact absurd (List.getLast?_eq_none_iff.mp hlst) (by simp)
  | some lst =>
    simp only [load_polygon_ring, hlst] at h
    by_cases hc : c = lst
    · rw [if_neg (by simpa using hc)] at h
      simp only [Option.some.injEq] at h
      subst h
      refine ⟨?_, fun _ => rfl, fun hne => ?_⟩
      · rw [hlst]
        simp [hc]
      · exfalso
        apply hne
        rw [List.head?_cons, hc]
    · rw [if_pos (by simpa using hc)] at h
      simp only [Option.some.injEq] at h
      subst h
      refine ⟨?_, fun heq => ?_, fun _ => rfl⟩
      · rw [List.getLast?_concat]
        simp
      · exfalso
        apply hc
        rw [List.head?_cons] at heq
        exact Option.some_inj.mp heq

/-- C3 (witness): the claim evaluated on a concrete open two-vertex list. -/
theorem C3_witness :
    load_polygon_ring [((0 : Rat), (0 : Rat)), ((1 : Rat), (1 : Rat))]
      = some [((0 : Rat), (0 : Rat)), ((1 : Rat), (1 : Rat)), ((0 : Rat), (0 : Rat))] ∧
    ([((0 : Rat), (0 : Rat)), ((1 : Rat), (1 : Rat)), ((0 : Rat), (0 : Rat))].head?
        = [((0 : Rat), (0 : Rat)), ((1 : Rat), (1 : Rat)), ((0 : Rat), (0 : Rat))].getLast? ∧
      ([((0 : Rat), (0 : Rat)), ((1 : Rat), (1 : Rat))].head?
          = [((0 : Rat), (0 : Rat)), ((1 : Rat), (1 : Rat))].getLast? →
        [((0 : Rat), (0 : Rat)), ((1 : Rat), (1 : Rat)), ((0 : Rat), (0 : Rat))]
          = [((0 : Rat), (0 : Rat)), ((1 : Rat), (1 : Rat))]) ∧
      ([((0 : Rat), (0 : Rat)), ((1 : Rat), (1 : Rat))].head?
          ≠ [((0 : Rat), (0 : Rat)), ((1 : Rat), (1 : Rat))].getLast? →
        [((0 : Rat), (0 : Rat)), ((1 : Rat), (1 : Rat)), ((0 : Rat), (0 : Rat))]
          = [((0 : Rat), (0 : Rat)), ((1 : Rat), (1 : Rat))] ++ [((0 : Rat), (0 : Rat))])) :=
  ⟨by decide, C3_load_polygon_closed ((0 : Rat), (0 : Rat)) [((1 : Rat), (1 : Rat))] _
    (by decide)⟩

theorem findIdxL_first (pat : List Char) :
    ∀ (s : List Char) (i : Nat), findIdxL pat s = some i →
      pat.isPrefixOf (s.drop i) = true ∧ ∀ k < i, pat.isPrefixOf (s.drop k) = false := by
  intro s
  induction s with
  | nil =>
    intro i h
    simp only [findIdxL] at h
    by_cases hp : pat = []
    · rw [if_pos hp] at h
      simp only [Option.some.injEq] at h
      subst h
      subst hp
      exact ⟨rfl, fun k hk => absurd hk (by omega)⟩
    · rw [if_neg hp] at h
      cases h
  | cons c rest ih =>
    intro i h
    simp only [findIdxL] at h
    by_cases hp : pat.isPrefixOf (c :: rest) = true
    · rw [if_pos hp] at h
      simp only [Option.some.injEq] at h
      subst h
      exact ⟨hp, fun k hk => absurd hk (by omega)⟩
    · rw [if_neg hp] at h
      cases hr : findIdxL pat rest with
      | none => rw [hr] at h; cases h
      | some i' =>
        rw [hr] at h
        simp only [Option.map_some', Option.some.injEq] at h
        subst h
        obtain ⟨h1, h2⟩ := ih i' hr
        refine ⟨by rwa [List.drop_succ_cons], fun k hk => ?_⟩
        cases k with
        | zero =>
          simp only [List.drop_zero]
          exact Bool.not_eq_true _ ▸ (by simpa using hp)
        | succ k' =>
          rw [List.drop_succ_cons]
          exact h2 k' (by omega)

/-- C7 (amended): on a file whose contents contain both markers,
`_load_apple_healthkit_export_xml` removes the substring starting at the
first occurrence of `<!DOCTYPE` and ending at the end of the first
occurrence of `]>`, additionally deletes every vertical-tab character
(U+000B) from the concatenation of the remaining parts, and hands exactly
that string to the XML parser. -/
theorem C7_loader (p : List Char → Option Elem) (s : List Char) (i j : Nat)
    (hi : findIdxL doctypePat s = some i) (hj : findIdxL closePat s = some j) :
    (doctypePat.isPrefixOf (s.drop i) = true ∧
      ∀ k < i, doctypePat.isPrefixOf (s.drop k) = false) ∧
    (closePat.isPrefixOf (s.drop j) = true ∧
      ∀ k < j, closePat.isPrefixOf (s.drop k) = false) ∧
    loadExportXml p s = p (removeVT (s.take i ++ s.drop (j + 2))) := by
  refine ⟨findIdxL_first _ _ _ hi, findIdxL_first _ _ _ hj, ?_⟩
  simp only [loadExportXml, stripDoctype, hi, hj, Option.bind]

/-- C7 (counterexample): on contents holding a vertical tab, the parsed
string is not the plain concatenation of the parts before and after the
DOCTYPE block — the loader also deletes the U+000B character. -/
theorem C7_counterexample :
    (stripDoctype "a\x0b<!DOCTYPE h]>b".data).map String.mk = some "a\x0bb" ∧
    loadExportXml parseInj "a\x0b<!DOCTYPE h]>b".data = some (Elem.mk "ab" [] none []) ∧
    ("ab" : String) ≠ "a\x0bb" :=
  ⟨by decide, by decide, by decide⟩

/-- C7 (witness): the amended claim evaluated on concrete file contents. -/
theorem C7_witness :
    findIdxL doctypePat "<!DOCTYPE x]><r/>".data = some 0 ∧
    findIdxL closePat "<!DOCTYPE x]><r/>".data = some 11 ∧
    ((doctypePat.isPrefixOf ("<!DOCTYPE x]><r/>".data.drop 0) = true ∧
      ∀ k < 0, doctypePat.isPrefixOf ("<!DOCTYPE x]><r/>".data.drop k) = false) ∧
    (closePat.isPrefixOf ("<!DOCTYPE x]><r/>".data.drop 11) = true ∧
      ∀ k < 11, closePat.isPrefixOf ("<!DOCTYPE x]><r/>".data.drop k) = false) ∧
    loadExportXml parseInj "<!DOCTYPE x]><r/>".data
      = parseInj (removeVT ("<!DOCTYPE x]><r/>".data.take 0 ++
          "<!DOCTYPE x]><r/>".data.drop (11 + 2)))) :=
  ⟨by decide, by decide,
    C7_loader parseInj "<!DOCTYPE x]><r/>".data 0 11 (by decide) (by decide)⟩

theorem union_polygons_foldl (acc : Set (Rat × Rat)) :
    ∀ ps : List (Set (Rat × Rat)),
      ps.foldl (fun acc p => acc ∪ p) acc = acc ∪ {x | ∃ p ∈ ps, x ∈ p} := by
  intro ps
  induction ps generalizing acc with
  | nil =>
    ext x
    simp
  | cons p ps ih =>
    simp only [List.foldl_cons]
    rw [ih]
    ext x
    simp only [Set.mem_union, Set.mem_setOf_eq, List.mem_cons]
    constructor
    · rintro ((hx | hx) | ⟨q, hq, hx⟩)
      · exact Or.inl hx
      · exact Or.inr ⟨p, Or.inl rfl, hx⟩
      · exact Or.inr ⟨q, Or.inr hq, hx⟩
    · rintro (hx | ⟨q, (hq | hq), hx⟩)
      · exact Or.inl (Or.inl hx)
      · exact Or.inl (Or.inr (hq ▸ hx))
      · exact Or.inr ⟨q, hq, hx⟩

theorem union_polygons_eq (ps : List (Set (Rat × Rat))) :
    union_polygons ps = {x | ∃ p ∈ ps, x ∈ p} := by
  rw [union_polygons, union_polygons_foldl]
  ext x
  simp

/-- C9 (confirmed): `union_polygons` folds set union over the list starting
from the empty polygon, so it contains every input polygon, the union of no
polygons is the empty polygon, and the result only depends on the input up
to permutation. -/
theorem C9_union_polygons :
    (∀ ps : List (Set (Rat × Rat)), ∀ p ∈ ps, p ⊆ union_polygons ps) ∧
    union_polygons [] = ∅ ∧
    (∀ ps qs : List (Set (Rat × Rat)), ps.Perm qs →
      union_polygons ps = union_polygons qs) := by
  refine ⟨?_, ?_, ?_⟩
  · intro ps p hp x hx
    rw [union_polygons_eq]
    exact ⟨p, hp, hx⟩
  · rw [union_polygons_eq]
    ext x
    simp
  · intro ps qs hperm
    rw [union_polygons_eq, union_polygons_eq]
    ext x
    simp only [Set.mem_setOf_eq]
    constructor
    · rintro ⟨p, hp, hx⟩
      exact ⟨p, hperm.mem_iff.mp hp, hx⟩
    · rintro ⟨p, hp, hx⟩
      exact ⟨p, hperm.mem_iff.mpr hp, hx⟩

/-- C9 (witness): the claim evaluated at two concrete singleton polygons
and the swap permutation. -/
theorem C9_witness :
    ({((0 : Rat), (0 : Rat))} : Set (Rat × Rat))
        ⊆ union_polygons [{((0 : Rat), (0 : Rat))}, {((1 : Rat), (1 : Rat))}] ∧
    union_polygons ([] : List (Set (Rat × Rat))) = ∅ ∧
    union_polygons [({((0 : Rat), (0 : Rat))} : Set (Rat × Rat)), {((1 : Rat), (1 : Rat))}]
      = union_polygons [({((1 : Rat), (1 : Rat))} : Set (Rat × Rat)), {((0 : Rat), (0 : Rat))}] :=
  ⟨C9_union_polygons.1 _ _ (by simp),
   C9_union_polygons.2.1,
   C9_union_polygons.2.2 _ _
     (List.Perm.swap {((1 : Rat), (1 : Rat))} {((0 : Rat), (0 : Rat))} [])⟩

/-- C10 (confirmed): `build_polygon_hierarchy` needs at least three
`-`-separated components before the first `.` of a CSV base name; with
fewer components the row construction raises `IndexError` instead of
producing a row, and with three or more it produces a row. -/
theorem C10_polygon_name_arity (base : String) :
    build_polygon_row base = none ↔ (polygonNameParts base).length < 3 := by
  rcases hl : polygonNameParts base with _ | ⟨a, _ | ⟨b, _ | ⟨c, rest⟩⟩⟩ <;>
    simp [build_polygon_row, hl]

theorem subtreeAll_cons (t : String) (a : List (String × String)) (x : Option String)
    (cs0 rest : List Elem) :
    subtreeAll (Elem.mk t a x cs0 :: rest)
      = Elem.mk t a x cs0 :: (subtreeAll cs0 ++ subtreeAll rest) := by
  simp [subtreeAll, subtreeL, subtreeE]

theorem scrubFuel_noWA :
    ∀ (fuel : Nat) (cs : List Elem), elemsSize cs ≤ fuel →
      (∀ e ∈ subtreeAll cs, e.tag ≠ "WorkoutActivity") → scrubFuel fuel cs = some cs := by
  intro fuel
  induction fuel with
  | zero =>
    intro cs hsz hwa
    exact absurd hsz (by have := elemsSize_pos cs; omega)
  | succ n ih =>
    intro cs hsz hwa
    match cs with
    | [] => rfl
    | Elem.mk t a x cs0 :: rest =>
      have hcons := elemsSize_cons (Elem.mk t a x cs0) rest
      simp only [Elem.children] at hcons
      have hpos0 := elemsSize_pos cs0
      have hposr := elemsSize_pos rest
      have hszc : elemsSize cs0 ≤ n := by omega
      have hszr : elemsSize rest ≤ n := by omega
      have hwa0 : ∀ e ∈ subtreeAll cs0, e.tag ≠ "WorkoutActivity" := fun e he =>
        hwa e (by
          rw [subtreeAll_cons]
          exact List.mem_cons_of_mem _ (List.mem_append_left _ he))
      have hwar : ∀ e ∈ subtreeAll rest, e.tag ≠ "WorkoutActivity" := fun e he =>
        hwa e (by
          rw [subtreeAll_cons]
          exact List.mem_cons_of_mem _ (List.mem_append_right _ he))
      have hwaDesc : waDesc cs0 = [] := by
        simp only [waDesc]
        rw [List.filter_eq_nil_iff]
        intro e he
        simpa using hwa0 e he
      have hra : removeAll (waDesc cs0) cs0 = some cs0 := by rw [hwaDesc]; rfl
      by_cases ht : t = "Workout"
      · simp only [scrubFuel, if_pos ht, hra, ih cs0 hszc hwa0, ih rest hszr hwar]
      · simp only [scrubFuel, if_neg ht, ih cs0 hszc hwa0, ih rest hszr hwar]

theorem scrubL_noWA (cs : List Elem)
    (hwa : ∀ e ∈ subtreeAll cs, e.tag ≠ "WorkoutActivity") : scrubL cs = some cs :=
  scrubFuel_noWA (elemsSize cs) cs (Nat.le_refl _) hwa

theorem buildWorkoutTables_tree {toDT : String → Option Int} {root : Elem}
    {res : List (String × Table) × Elem} (h : buildWorkoutTables toDT root = some res) :
    ∃ cs', scrubL root.children = some cs' ∧
      res.2 = Elem.mk root.tag root.attrs root.text cs' := by
  simp only [buildWorkoutTables] at h
  cases h1 : mapMO buildWorkoutRow (root.findall "Workout") with
  | none => rw [h1] at h; simp [Option.bind] at h
  | some krs =>
    rw [h1] at h
    simp only [Option.bind] at h
    cases h2 : mapMO (fun g => (coerceDateCols isDateCol toDT (mkTable g.2)).map
        (fun t => (g.1, t)))
        (krs.foldl (fun acc kr => groupAppend kr.1 kr.2 acc) []) with
    | none => rw [h2] at h; simp at h
    | some tables =>
      rw [h2] at h
      simp only at h
      cases h3 : scrubL root.children with
      | none => rw [h3] at h; simp [Option.map] at h
      | some cs' =>
        rw [h3] at h
        simp only [Option.map, Option.some.injEq] at h
        exact ⟨cs', rfl, by rw [← h]⟩

/-- C4 (amended): the quantity and route builders never modify the parsed
XML tree (they are pure functions of it), but the workout-table builder
does mutate it — it removes the WorkoutActivity descendants of every
Workout element; when no WorkoutActivity element is present anywhere in
the tree, the tree is returned unchanged, which this theorem states, and
the counterexample shows an actual mutation. (The converse fails: a
WorkoutActivity outside every Workout is never removed, so its presence
does not force a change.) -/
theorem C4_tree_mutation (toDT : String → Option Int) (root : Elem)
    (res : List (String × Table) × Elem)
    (h : buildWorkoutTables toDT root = some res)
    (hwa : ∀ e ∈ subtreeAll root.children, e.tag ≠ "WorkoutActivity") :
    res.2 = root := by
  obtain ⟨cs', hscrub, hres⟩ := buildWorkoutTables_tree h
  rw [scrubL_noWA root.children hwa] at hscrub
  simp only [Option.some.injEq] at hscrub
  rw [hres, ← hscrub]
  cases root
  rfl

/-- C4 (counterexample): building the workout tables changes the XML tree —
the WorkoutActivity child of the Workout is removed in place. -/
theorem C4_counterexample :
    buildWorkoutTables constDT exRoot4
      = some ([("Running", ⟨["workoutActivityType"],
          [[("workoutActivityType", Cell.str "HKWorkoutActivityTypeRunning")]]⟩)],
        Elem.mk "HealthData" [] none
          [Elem.mk "Workout" [("workoutActivityType", "HKWorkoutActivityTypeRunning")]
            none []]) ∧
    Elem.mk "HealthData" [] none
        [Elem.mk "Workout" [("workoutActivityType", "HKWorkoutActivityTypeRunning")] none []]
      ≠ exRoot4 ∧
    (exRoot4.findall "WorkoutActivity").length = 1 :=
  ⟨by decide, by decide, by decide⟩

/-- C4 (witness): the amended claim evaluated on a concrete tree free of
WorkoutActivity elements. -/
theorem C4_witness :
    buildWorkoutTables constDT exRoot4b
      = some ([("Running", ⟨["workoutActivityType"],
          [[("workoutActivityType", Cell.str "HKWorkoutActivityTypeRunning")]]⟩)],
        exRoot4b) ∧
    (∀ e ∈ subtreeAll exRoot4b.children, e.tag ≠ "WorkoutActivity") ∧
    (([("Running", (⟨["workoutActivityType"],
          [[("workoutActivityType", Cell.str "HKWorkoutActivityTypeRunning")]]⟩ : Table))],
        exRoot4b) : List (String × Table) × Elem).2 = exRoot4b :=
  ⟨by decide, by decide,
    C4_tree_mutation constDT exRoot4b _ (by decide) (by decide)⟩

theorem buildWorkoutRow_unpack {w : Elem} {key : String} {row : Dict}
    (h : buildWorkoutRow w = some (key, row)) :
    ∃ ty d1 cs' d2, getAttr w "workoutActivityType" = some ty ∧
      metaFold (w.findall "MetadataEntry") (attrsDict w.attrs []) = some d1 ∧
      removeAll (w.findall "WorkoutActivity") w.children = some cs' ∧
      statFold ((Elem.mk w.tag w.attrs w.text cs').findall "WorkoutStatistics") d1 = some d2 ∧
      routeStep (Elem.mk w.tag w.attrs w.text cs') d2 = some row ∧
      key = stripWorkoutType ty := by
  simp only [buildWorkoutRow] at h
  cases hty : getAttr w "workoutActivityType" with
  | none => rw [hty, Option.none_bind] at h; cases h
  | some ty =>
    rw [hty, Option.some_bind] at h
    cases hmeta : metaFold (w.findall "MetadataEntry") (attrsDict w.attrs []) with
    | none => rw [hmeta, Option.none_bind] at h; cases h
    | some d1 =>
      rw [hmeta, Option.some_bind] at h
      cases hrm : removeAll (w.findall "WorkoutActivity") w.children with
      | none => rw [hrm, Option.none_bind] at h; cases h
      | some cs' =>
        rw [hrm, Option.some_bind] at h
        cases hstat : statFold ((Elem.mk w.tag w.attrs w.text cs').findall
            "WorkoutStatistics") d1 with
        | none => rw [hstat, Option.none_bind] at h; cases h
        | some d2 =>
          rw [hstat, Option.some_bind] at h
          cases hroute : routeStep (Elem.mk w.tag w.attrs w.text cs') d2 with
          | none => rw [hroute] at h; cases h
          | some d3 =>
            rw [hroute] at h
            simp only [Option.map_some', Option.some.injEq, Prod.mk.injEq] at h
            exact ⟨ty, d1, cs', d2, rfl, rfl, rfl, hstat,
              by rw [← h.2]; exact hroute, h.1.symm⟩

/-- C5 (amended): for every Workout element, `_build_AHK_workout_tables`
produces a row keyed by the `workoutActivityType` attribute with every
occurrence of `HKWorkoutActivityType` removed (Python `str.replace`, not a
strict leading-marker strip), containing a column for each workout
attribute, one per nested MetadataEntry key, and one per WorkoutStatistics
attribute other than `type`/`startDate`/`endDate` named
`{stripped type}_{attribute}`; a `route_file_reference` column is present
whenever a WorkoutRoute survives the WorkoutActivity removal, and — as long
as no attribute, metadata key, or statistics column is itself named
`route_file_reference` — it is absent when no WorkoutRoute survives (the
counterexample shows a WorkoutRoute inside a WorkoutActivity yields no
column even though the workout contains one). -/
theorem C5_workout_row (w : Elem) (key : String) (row : Dict)
    (h : buildWorkoutRow w = some (key, row)) :
    (∀ ty, getAttr w "workoutActivityType" = some ty → key = stripWorkoutType ty) ∧
    (∀ kv ∈ w.attrs, (rlookup row kv.1).isSome = true) ∧
    (∀ m ∈ w.findall "MetadataEntry", ∀ k, getAttr m "key" = some k →
        (rlookup row k).isSome = true) ∧
    (∀ cs', removeAll (w.findall "WorkoutActivity") w.children = some cs' →
      ((∀ st ∈ (Elem.mk w.tag w.attrs w.text cs').findall "WorkoutStatistics",
          ∀ ty2, getAttr st "type" = some ty2 → ∀ kv ∈ st.attrs,
            kv.1 ≠ "type" → kv.1 ≠ "startDate" → kv.1 ≠ "endDate" →
            (rlookup row (stripStatType ty2 ++ "_" ++ kv.1)).isSome = true) ∧
       (((Elem.mk w.tag w.attrs w.text cs').findFirst "WorkoutRoute").isSome = true →
          (rlookup row "route_file_reference").isSome = true) ∧
       ((∀ kv ∈ w.attrs, kv.1 ≠ "route_file_reference") →
        (∀ m ∈ w.findall "MetadataEntry", ¬ getAttr m "key" = some "route_file_reference") →
        (∀ st ∈ (Elem.mk w.tag w.attrs w.text cs').findall "WorkoutStatistics",
           ∀ ty2, getAttr st "type" = some ty2 → ∀ kv ∈ st.attrs,
             stripStatType ty2 ++ "_" ++ kv.1 ≠ "route_file_reference") →
        ((Elem.mk w.tag w.attrs w.text cs').findFirst "WorkoutRoute") = none →
        rlookup row "route_file_reference" = none))) := by
  obtain ⟨ty0, d1, cs'0, d2, hty0, hmeta, hrm, hstat, hroute, hkey⟩ := buildWorkoutRow_unpack h
  have hstep : ∀ k : String, (rlookup d2 k).isSome = true → (rlookup row k).isSome = true :=
    fun k hk => (routeStep_isSome _ d2 row k hroute).mpr (Or.inr hk)
  have hstep1 : ∀ k : String, (rlookup d1 k).isSome = true → (rlookup d2 k).isSome = true :=
    fun k hk => (statFold_isSome k _ d1 d2 hstat).mpr (Or.inr hk)
  have hstep0 : ∀ k : String, (rlookup (attrsDict w.attrs []) k).isSome = true →
      (rlookup d1 k).isSome = true :=
    fun k hk => (metaFold_isSome k _ _ d1 hmeta).mpr (Or.inr hk)
  refine ⟨?_, ?_, ?_, ?_⟩
  · intro ty hty
    rw [hty0] at hty
    simp only [Option.some.injEq] at hty
    rw [hkey, hty]
  · intro kv hkv
    refine hstep _ (hstep1 _ (hstep0 _ ?_))
    rw [rlookup_attrsDict_isSome]
    exact Or.inl (List.mem_map_of_mem Prod.fst hkv)
  · intro m hm k hk
    refine hstep _ (hstep1 _ ?_)
    exact (metaFold_isSome k _ _ d1 hmeta).mpr (Or.inl ⟨m, hm, hk⟩)
  · intro cs' hcs'
    rw [hrm] at hcs'
    simp only [Option.some.injEq] at hcs'
    subst hcs'
    refine ⟨?_, ?_, ?_⟩
    · intro st hst ty2 hty2 kv hkv h1 h2 h3
      refine hstep _ ?_
      refine (statFold_isSome _ _ d1 d2 hstat).mpr (Or.inl ?_)
      exact ⟨st, hst, ty2, hty2, kv, hkv, by tauto, rfl⟩
    · intro hfind
      exact (routeStep_isSome _ d2 row _ hroute).mpr (Or.inl ⟨rfl, hfind⟩)
    · intro hattrs hmetas hstats hnone
      refine Option.not_isSome_iff_eq_none.mp ?_
      intro hsome
      rcases (routeStep_isSome _ d2 row _ hroute).mp hsome with ⟨_, hfind⟩ | hd2
      · rw [hnone] at hfind
        cases hfind
      · rcases (statFold_isSome _ _ d1 d2 hstat).mp hd2 with
          ⟨st, hst, ty2, hty2, kv, hkv, _, hname⟩ | hd1
        · exact hstats st hst ty2 hty2 kv hkv hname.symm
        · rcases (metaFold_isSome _ _ _ d1 hmeta).mp hd1 with ⟨m, hm, hk⟩ | h0
          · exact hmetas m hm hk
          · rw [rlookup_attrsDict_isSome] at h0
            rcases h0 with hmem | hnil
            · simp only [List.mem_map] at hmem
              obtain ⟨kv, hkv, hkv1⟩ := hmem
              exact hattrs kv hkv hkv1
            · simp [rlookup] at hnil

/-- C5 (counterexample): a Workout whose only WorkoutRoute sits inside a
WorkoutActivity gets no `route_file_reference` column — the WorkoutActivity
subtree is removed before the route lookup — although the workout does
contain a WorkoutRoute element; and its key `AB` removes the
`HKWorkoutActivityType` occurrence from the middle of the type rather than
stripping a prefix. -/
theorem C5_counterexample :
    buildWorkoutRow exW5 = some ("AB", [("workoutActivityType", "AHKWorkoutActivityTypeB")]) ∧
    (exW5.findFirst "WorkoutRoute").isSome = true ∧
    rlookup [("workoutActivityType", "AHKWorkoutActivityTypeB")] "route_file_reference"
      = none ∧
    specStripWorkoutType "AHKWorkoutActivityTypeB" = "AHKWorkoutActivityTypeB" ∧
    "AB" ≠ "AHKWorkoutActivityTypeB" :=
  ⟨by decide, by decide, by decide, by decide, by decide⟩

/-- C5 (witness): the amended claim evaluated on a fully-featured concrete
workout. -/
theorem C5_witness :
    buildWorkoutRow exW5b = some ("Running", exRow5b) ∧
    ((∀ ty, getAttr exW5b "workoutActivityType" = some ty →
        "Running" = stripWorkoutType ty) ∧
    (∀ kv ∈ exW5b.attrs, (rlookup exRow5b kv.1).isSome = true) ∧
    (∀ m ∈ exW5b.findall "MetadataEntry", ∀ k, getAttr m "key" = some k →
        (rlookup exRow5b k).isSome = true) ∧
    (∀ cs', removeAll (exW5b.findall "WorkoutActivity") exW5b.children = some cs' →
      ((∀ st ∈ (Elem.mk exW5b.tag exW5b.attrs exW5b.text cs').findall "WorkoutStatistics",
          ∀ ty2, getAttr st "type" = some ty2 → ∀ kv ∈ st.attrs,
            kv.1 ≠ "type" → kv.1 ≠ "startDate" → kv.1 ≠ "endDate" →
            (rlookup exRow5b (stripStatType ty2 ++ "_" ++ kv.1)).isSome = true) ∧
       (((Elem.mk exW5b.tag exW5b.attrs exW5b.text cs').findFirst "WorkoutRoute").isSome
            = true →
          (rlookup exRow5b "route_file_reference").isSome = true) ∧
       ((∀ kv ∈ exW5b.attrs, kv.1 ≠ "route_file_reference") →
        (∀ m ∈ exW5b.findall "MetadataEntry",
          ¬ getAttr m "key" = some "route_file_reference") →
        (∀ st ∈ (Elem.mk exW5b.tag exW5b.attrs exW5b.text cs').findall "WorkoutStatistics",
           ∀ ty2, getAttr st "type" = some ty2 → ∀ kv ∈ st.attrs,
             stripStatType ty2 ++ "_" ++ kv.1 ≠ "route_file_reference") →
        ((Elem.mk exW5b.tag exW5b.attrs exW5b.text cs').findFirst "WorkoutRoute") = none →
        rlookup exRow5b "route_file_reference" = none)))) :=
  ⟨by decide, C5_workout_row exW5b "Running" exRow5b (by decide)⟩

theorem mapMO_map_eq {α β γ : Type} {f : α → Option β} {g : β → γ} {h2 : α → γ}
    (hrel : ∀ a b, f a = some b → g b = h2 a) :
    ∀ {l : List α} {bs : List β}, mapMO f l = some bs → bs.map g = l.map h2 := by
  intro l
  induction l with
  | nil =>
    intro bs h
    simp only [mapMO, Option.some.injEq] at h
    subst h
    rfl
  | cons a rest ih =>
    intro bs h
    obtain ⟨b, bs', hf, hrest, hbs⟩ := mapMO_cons_some h
    subst hbs
    simp only [List.map_cons]
    rw [hrel a b hf, ih hrest]

theorem mapMO_map_const {α β γ : Type} {g : α → Option β} {fn : β → γ} {c : γ}
    (hconst : ∀ a b, g a = some b → fn b = c) :
    ∀ {l : List α} {bs : List β}, mapMO g l = some bs →
      bs.map fn = List.replicate l.length c := by
  intro l
  induction l with
  | nil =>
    intro bs h
    simp only [mapMO, Option.some.injEq] at h
    subst h
    rfl
  | cons a rest ih =>
    intro bs h
    obtain ⟨b, bs', hf, hrest, hbs⟩ := mapMO_cons_some h
    subst hbs
    simp only [List.map_cons, List.length_cons, List.replicate_succ]
    rw [hconst a b hf, ih hrest]

theorem buildTrkptRow_fields {rid : String} {p : Elem} {r : TrkptRow}
    (h : buildTrkptRow rid p = some r) :
    r.route_id = rid ∧ getAttr p "lat" = some r.lat ∧ getAttr p "lon" = some r.lon ∧
    (∃ e, p.findFirst "ele" = some e ∧ e.text = r.ele) ∧
    (∃ e, p.findFirst "time" = some e ∧ e.text = r.time) ∧
    (∃ ext, p.findFirst "extensions" = some ext ∧
      (∃ e, ext.findFirst "speed" = some e ∧ e.text = r.speed) ∧
      (∃ e, ext.findFirst "course" = some e ∧ e.text = r.course) ∧
      (∃ e, ext.findFirst "hAcc" = some e ∧ e.text = r.hAcc) ∧
      (∃ e, ext.findFirst "vAcc" = some e ∧ e.text = r.vAcc)) := by
  simp only [buildTrkptRow] at h
  cases h1 : getAttr p "lat" with
  | none => rw [h1, Option.none_bind] at h; cases h
  | some lat =>
  rw [h1, Option.some_bind] at h
  cases h2 : getAttr p "lon" with
  | none => rw [h2, Option.none_bind] at h; cases h
  | some lon =>
  rw [h2, Option.some_bind] at h
  cases h3 : p.findFirst "ele" with
  | none => rw [h3, Option.none_bind] at h; cases h
  | some eleE =>
  rw [h3, Option.some_bind] at h
  cases h4 : p.findFirst "time" with
  | none => rw [h4, Option.none_bind] at h; cases h
  | some timeE =>
  rw [h4, Option.some_bind] at h
  cases h5 : p.findFirst "extensions" with
  | none => rw [h5, Option.none_bind] at h; cases h
  | some ext =>
  rw [h5, Option.some_bind] at h
  cases h6 : ext.findFirst "speed" with
  | none => rw [h6, Option.none_bind] at h; cases h
  | some speedE =>
  rw [h6, Option.some_bind] at h
  cases h7 : ext.findFirst "course" with
  | none => rw [h7, Option.none_bind] at h; cases h
  | some courseE =>
  rw [h7, Option.some_bind] at h
  cases h8 : ext.findFirst "hAcc" with
  | none => rw [h8, Option.none_bind] at h; cases h
  | some hAccE =>
  rw [h8, Option.some_bind] at h
  cases h9 : ext.findFirst "vAcc" with
  | none => rw [h9] at h; cases h
  | some vAccE =>
  rw [h9] at h
  simp only [Option.map_some', Option.some.injEq] at h
  subst h
  exact ⟨rfl, rfl, rfl, ⟨eleE, rfl, rfl⟩, ⟨timeE, rfl, rfl⟩,
    ⟨ext, rfl, ⟨speedE, h6, rfl⟩, ⟨courseE, h7, rfl⟩, ⟨hAccE, h8, rfl⟩,
      ⟨vAccE, h9, rfl⟩⟩⟩

theorem buildRouteRows_spec :
    ∀ (files : List (String × Elem)) (rs : List TrkptRow),
      buildRouteRows files = some rs →
      rs.map (fun r => r.route_id)
        = files.flatMap (fun fe =>
            List.replicate (fe.2.findall "trkpt").length (routeId fe.1)) ∧
      ∀ r ∈ rs, ∃ fe ∈ files, ∃ p ∈ fe.2.findall "trkpt",
        buildTrkptRow (routeId fe.1) p = some r := by
  intro files
  induction files with
  | nil =>
    intro rs h
    simp only [buildRouteRows, Option.some.injEq] at h
    subst h
    simp
  | cons fe rest ih =>
    intro rs h
    obtain ⟨f, root⟩ := fe
    simp only [buildRouteRows] at h
    cases hm : mapMO (buildTrkptRow (routeId f)) (root.findall "trkpt") with
    | none => rw [hm] at h; cases h
    | some rs1 =>
      rw [hm] at h
      cases hrest : buildRouteRows rest with
      | none => rw [hrest] at h; cases h
      | some more =>
        rw [hrest] at h
        simp only [Option.some.injEq] at h
        subst h
        obtain ⟨ihmap, ihmem⟩ := ih more hrest
        constructor
        · rw [List.map_append, List.flatMap_cons, ihmap]
          congr 1
          exact mapMO_map_const
            (fun p r hr => (buildTrkptRow_fields hr).1) hm
        · intro r hr
          rcases List.mem_append.mp hr with hr1 | hr2
          · obtain ⟨p, hp, hpr⟩ := mapMO_mem hm r hr1
            exact ⟨(f, root), List.mem_cons_self _ rest, p, hp, hpr⟩
          · obtain ⟨fe', hfe', p, hp, hpr⟩ := ihmem r hr2
            exact ⟨fe', List.mem_cons_of_mem _ hfe', p, hp, hpr⟩

theorem build_AHK_route_tables_unpack {toDT : String → Option Int}
    {toNum : String → Option Rat} {files : List (String × Elem)} {t : Table}
    (h : build_AHK_route_tables toDT toNum files = some t) :
    ∃ rs t1, buildRouteRows files = some rs ∧
      coerceDateCols isTimeCol toDT (mkTable (rs.map rawRowOfTrkpt)) = some t1 ∧
      t = routeValueCols.foldl (fun t c => coerceNumCol c toNum t) t1 := by
  simp only [build_AHK_route_tables] at h
  cases h1 : buildRouteRows files with
  | none => rw [h1, Option.none_bind] at h; cases h
  | some rs =>
    rw [h1, Option.some_bind] at h
    cases h2 : coerceDateCols isTimeCol toDT (mkTable (rs.map rawRowOfTrkpt)) with
    | none => rw [h2] at h; cases h
    | some t1 =>
      rw [h2] at h
      simp only [Option.map_some', Option.some.injEq] at h
      exact ⟨rs, t1, rfl, h2, h.symm⟩

theorem rawRow_clookup_route_id (r : TrkptRow) :
    clookup ((rawRowOfTrkpt r).map (fun kv => (kv.1, Cell.str kv.2))) "route_id"
      = some (Cell.str r.route_id) := by
  simp [rawRowOfTrkpt, clookup, List.find?]

/-- C6 (amended): `_build_AHK_route_tables` returns a single table with one
row per track point across all GPX files; each row's `route_id` equals the
part of the file path after the last backslash with every occurrence of
`.gpx` removed (`split('\\')[-1].replace('.gpx','')`, which is the base
name minus extension only for backslash-separated paths), and carries that
track point's `lat`/`lon` attributes and the text of its `ele`, `time`,
`speed`, `course`, `hAcc` and `vAcc` sub-elements. -/
theorem C6_route_tables (toDT : String → Option Int) (toNum : String → Option Rat)
    (files : List (String × Elem)) (t : Table)
    (h : build_AHK_route_tables toDT toNum files = some t) :
    ∃ rs, buildRouteRows files = some rs ∧
      t.rows.length = rs.length ∧
      rs.map (fun r => r.route_id)
        = files.flatMap (fun fe =>
            List.replicate (fe.2.findall "trkpt").length (routeId fe.1)) ∧
      t.rows.map (fun row => clookup row "route_id")
        = rs.map (fun r => some (Cell.str r.route_id)) ∧
      (∀ r ∈ rs, ∃ fe ∈ files, ∃ p ∈ fe.2.findall "trkpt",
        r.route_id = routeId fe.1 ∧
        getAttr p "lat" = some r.lat ∧ getAttr p "lon" = some r.lon ∧
        (∃ e, p.findFirst "ele" = some e ∧ e.text = r.ele) ∧
        (∃ e, p.findFirst "time" = some e ∧ e.text = r.time) ∧
        (∃ ext, p.findFirst "extensions" = some ext ∧
          (∃ e, ext.findFirst "speed" = some e ∧ e.text = r.speed) ∧
          (∃ e, ext.findFirst "course" = some e ∧ e.text = r.course) ∧
          (∃ e, ext.findFirst "hAcc" = some e ∧ e.text = r.hAcc) ∧
          (∃ e, ext.findFirst "vAcc" = some e ∧ e.text = r.vAcc))) := by
  obtain ⟨rs, t1, hrs, hdc, ht⟩ := build_AHK_route_tables_unpack h
  obtain ⟨rows', hm, ht1⟩ := coerceDateCols_unpack hdc
  obtain ⟨hmap, hmem⟩ := buildRouteRows_spec files rs hrs
  have hnotid : ∀ c ∈ routeValueCols, c ≠ "route_id" := by decide
  refine ⟨rs, hrs, ?_, hmap, ?_, ?_⟩
  · rw [ht, foldl_coerceNumCol_length]
    rw [ht1]
    simp only
    rw [mapMO_some_length hm]
    simp [mkTable]
  · rw [ht, foldl_coerceNumCol_clookup toNum routeValueCols t1 hnotid, ht1]
    simp only
    have hstep : rows'.map (fun row => clookup row "route_id")
        = (mkTable (rs.map rawRowOfTrkpt)).rows.map (fun row => clookup row "route_id") :=
      mapMO_map_eq (fun row row' hrow' => rowDT_clookup (by decide) hrow') hm
    rw [hstep]
    simp only [mkTable, List.map_map]
    refine List.map_congr_left ?_
    intro r _
    exact rawRow_clookup_route_id r
  · intro r hr
    obtain ⟨fe, hfe, p, hp, hpr⟩ := hmem r hr
    have hf := buildTrkptRow_fields hpr
    exact ⟨fe, hfe, p, hp, hf.1.symm ▸ hf⟩

/-- C6 (counterexample): for a forward-slash path, the `route_id` is the
whole path minus `.gpx`, not the file's base name — the code splits on
backslash only. -/
theorem C6_counterexample :
    buildRouteRows exFiles6 = some exRows6 ∧
    (exRows6.map (fun r => r.route_id)) = ["workout-routes/r1"] ∧
    routeId "workout-routes/r1.gpx" = "workout-routes/r1" ∧
    specRouteId "workout-routes/r1.gpx" = "r1" ∧
    ("workout-routes/r1" : String) ≠ "r1" :=
  ⟨by decide, by decide, by decide, by decide, by decide⟩

/-- C6 (witness): the amended claim evaluated on a concrete one-file,
one-track-point route folder. -/
theorem C6_witness :
    build_AHK_route_tables constDT failNum exFiles6 = some exTable6 ∧
    (∃ rs, buildRouteRows exFiles6 = some rs ∧
      exTable6.rows.length = rs.length ∧
      rs.map (fun r => r.route_id)
        = exFiles6.flatMap (fun fe =>
            List.replicate (fe.2.findall "trkpt").length (routeId fe.1)) ∧
      exTable6.rows.map (fun row => clookup row "route_id")
        = rs.map (fun r => some (Cell.str r.route_id)) ∧
      (∀ r ∈ rs, ∃ fe ∈ exFiles6, ∃ p ∈ fe.2.findall "trkpt",
        r.route_id = routeId fe.1 ∧
        getAttr p "lat" = some r.lat ∧ getAttr p "lon" = some r.lon ∧
        (∃ e, p.findFirst "ele" = some e ∧ e.text = r.ele) ∧
        (∃ e, p.findFirst "time" = some e ∧ e.text = r.time) ∧
        (∃ ext, p.findFirst "extensions" = some ext ∧
          (∃ e, ext.findFirst "speed" = some e ∧ e.text = r.speed) ∧
          (∃ e, ext.findFirst "course" = some e ∧ e.text = r.course) ∧
          (∃ e, ext.findFirst "hAcc" = some e ∧ e.text = r.hAcc) ∧
          (∃ e, ext.findFirst "vAcc" = some e ∧ e.text = r.vAcc)))) :=
  ⟨by decide, C6_route_tables constDT failNum exFiles6 exTable6 (by decide)⟩

theorem gridRange_mem (a b t : Int) : t ∈ gridRange a b ↔ a ≤ t ∧ t ≤ b := by
  unfold gridRange
  rw [List.mem_map]
  constructor
  · rintro ⟨i, hi, ht⟩
    rw [List.mem_range] at hi
    have ht' : a + (i : Int) = t := ht
    omega
  · rintro ⟨h1, h2⟩
    refine ⟨(t - a).toNat, ?_, ?_⟩
    · rw [List.mem_range]
      omega
    · show a + ((t - a).toNat : Int) = t
      omega

theorem pairwise_lt_head_le {t0 : Int} {v0 : Rat} {rest : List (Int × Rat)}
    (hp : List.Pairwise (fun a b => a.1 < b.1) ((t0, v0) :: rest)) :
    ∀ p ∈ (t0, v0) :: rest, t0 ≤ p.1 := by
  intro p hpm
  rcases List.mem_cons.mp hpm with h | h
  · rw [h]
  · have := (List.pairwise_cons.mp hp).1 p h
    simp only at this
    omega

theorem pairwise_lt_le_getLast :
    ∀ (rows : List (Int × Rat)), List.Pairwise (fun a b => a.1 < b.1) rows →
      ∀ p ∈ rows, ∀ q, rows.getLast? = some q → p.1 ≤ q.1 := by
  intro rows
  induction rows with
  | nil => intro _ p hp; cases hp
  | cons c rest ih =>
    intro hp p hpm q hq
    cases rest with
    | nil =>
      simp only [List.getLast?_singleton, Option.some.injEq] at hq
      rcases List.mem_cons.mp hpm with h | h
      · rw [h, ← hq]
      · cases h
    | cons c2 rest2 =>
      rw [List.getLast?_cons_cons] at hq
      have hptail := (List.pairwise_cons.mp hp).2
      rcases List.mem_cons.mp hpm with h | h
      · have h1 : c.1 < c2.1 := by
          have := (List.pairwise_cons.mp hp).1 c2 (List.mem_cons_self c2 rest2)
          simpa using this
        have h2 : c2.1 ≤ q.1 :=
          ih hptail c2 (List.mem_cons_self c2 rest2) q hq
        rw [h]
        omega
      · exact ih hptail p h q hq

theorem hrLookup_of_pairwise :
    ∀ (rows : List (Int × Rat)), List.Pairwise (fun a b => a.1 < b.1) rows →
      ∀ t v, (t, v) ∈ rows → hrLookup rows t = some v := by
  intro rows
  induction rows with
  | nil => intro _ t v hm; cases hm
  | cons c rest ih =>
    intro hp t v hm
    rcases List.mem_cons.mp hm with h | h
    · rw [← h]
      simp [hrLookup, List.find?]
    · have hlt : c.1 < t := by
        have := (List.pairwise_cons.mp hp).1 (t, v) h
        simpa using this
      have hne : decide (c.1 = t) = false := by
        simp only [decide_eq_false_iff_not]
        omega
      simp only [hrLookup, List.find?, hne]
      simpa [hrLookup] using ih (List.pairwise_cons.mp hp).2 t v h

theorem interpolate_heart_rate_eq (t0 : Int) (v0 : Rat) (rest : List (Int × Rat)) :
    interpolate_heart_rate ((t0, v0) :: rest)
      = (gridRange t0 (((((t0, v0) :: rest).getLast?).map (fun r => r.1)).getD t0)).map
          (fun t => match hrLookup ((t0, v0) :: rest) t with
            | some v => (t, v, "real")
            | none => (t, interpAt ((t0, v0) :: rest) t, "sampled")) := rfl

theorem seriesDiv_mem {a b : List (Int × Rat)} {l : Int} {x y : Rat}
    (hx : hrLookup a l = some x) (hy : hrLookup b l = some y) :
    (l, some (x / y)) ∈ seriesDiv a b := by
  have hmem : l ∈ dedupFirst (a.map (fun p => p.1) ++ b.map (fun p => p.1)) := by
    rw [mem_dedupFirst, List.mem_append]
    left
    simp only [hrLookup] at hx
    cases hfa : a.find? (fun r => r.1 = l) with
    | none => rw [hfa] at hx; cases hx
    | some r0 =>
      have hr0 := List.find?_some hfa
      simp only [decide_eq_true_eq] at hr0
      have : r0 ∈ a := List.mem_of_find?_eq_some hfa
      rw [← hr0]
      exact List.mem_map_of_mem (fun p => p.1) this
  simp only [seriesDiv, List.mem_map]
  exact ⟨l, hmem, by rw [hx, hy]⟩

/-- C8 (confirmed): for a nonempty heart-rate series with strictly
increasing whole-second timestamps, `Run.interpolate_heart_rate` resamples
to a one-second grid from the first to the last sample, keeps every
original sample with status `real`, fills every other grid point by
time-based interpolation with status `sampled`, and the derived
pace-per-heart-beat series divides the route's speed by the interpolated
heart-rate value wherever their (index-aligned) labels coincide. -/
theorem C8_run_interpolation (t0 : Int) (v0 : Rat) (rest : List (Int × Rat))
    (hp : List.Pairwise (fun a b => a.1 < b.1) ((t0, v0) :: rest)) :
    ((interpolate_heart_rate ((t0, v0) :: rest)).map (fun r => r.1)
        = gridRange t0 (((((t0, v0) :: rest).getLast?).map (fun r => r.1)).getD t0)) ∧
    (∀ p ∈ (t0, v0) :: rest,
        (p.1, p.2, "real") ∈ interpolate_heart_rate ((t0, v0) :: rest)) ∧
    (∀ t v s, (t, v, s) ∈ interpolate_heart_rate ((t0, v0) :: rest) → s = "sampled" →
        hrLookup ((t0, v0) :: rest) t = none ∧ v = interpAt ((t0, v0) :: rest) t) ∧
    (∀ t v s, (t, v, s) ∈ interpolate_heart_rate ((t0, v0) :: rest) → s = "real" →
        hrLookup ((t0, v0) :: rest) t = some v) ∧
    (∀ (speed : List (Int × Rat)) (l : Int) (x y : Rat),
        hrLookup speed l = some x →
        hrLookup ((interpolate_heart_rate ((t0, v0) :: rest)).enum.map
          (fun q => ((q.1 : Int), q.2.2.1))) l = some y →
        (l, some (x / y)) ∈
          calc_pace_per_heart_rate speed (interpolate_heart_rate ((t0, v0) :: rest))) := by
  refine ⟨?_, ?_, ?_, ?_, ?_⟩
  · rw [interpolate_heart_rate_eq, List.map_map]
    refine Eq.trans (List.map_congr_left ?_) (List.map_id _)
    intro t _
    simp only [Function.comp]
    cases hrLookup ((t0, v0) :: rest) t <;> rfl
  · intro p hpmem
    rw [interpolate_heart_rate_eq]
    have hlk : hrLookup ((t0, v0) :: rest) p.1 = some p.2 :=
      hrLookup_of_pairwise _ hp p.1 p.2 hpmem
    have hmemgrid : p.1 ∈ gridRange t0
        (((((t0, v0) :: rest).getLast?).map (fun r => r.1)).getD t0) := by
      rw [gridRange_mem]
      refine ⟨pairwise_lt_head_le hp p hpmem, ?_⟩
      cases hq : ((t0, v0) :: rest).getLast? with
      | none => exact absurd (List.getLast?_eq_none_iff.mp hq) (by simp)
      | some q =>
        have := pairwise_lt_le_getLast _ hp p hpmem q hq
        simpa using this
    exact List.mem_map.mpr ⟨p.1, hmemgrid, by rw [hlk]⟩
  · intro t v s hmem hs
    rw [interpolate_heart_rate_eq] at hmem
    obtain ⟨tg, _, hf⟩ := List.mem_map.mp hmem
    cases hlk : hrLookup ((t0, v0) :: rest) tg with
    | some v' =>
      rw [hlk] at hf
      simp only [Prod.mk.injEq] at hf
      rw [hs] at hf
      exact absurd hf.2.2 (by decide)
    | none =>
      rw [hlk] at hf
      simp only [Prod.mk.injEq] at hf
      obtain ⟨ht, hv, _⟩ := hf
      subst ht
      exact ⟨hlk, hv.symm⟩
  · intro t v s hmem hs
    rw [interpolate_heart_rate_eq] at hmem
    obtain ⟨tg, _, hf⟩ := List.mem_map.mp hmem
    cases hlk : hrLookup ((t0, v0) :: rest) tg with
    | some v' =>
      rw [hlk] at hf
      simp only [Prod.mk.injEq] at hf
      obtain ⟨ht, hv, _⟩ := hf
      subst ht
      rw [hlk, hv]
    | none =>
      rw [hlk] at hf
      simp only [Prod.mk.injEq] at hf
      rw [hs] at hf
      exact absurd hf.2.2 (by decide)
  · intro speed l x y hx hy
    exact seriesDiv_mem hx hy

/-- C8 (witness): the claim evaluated on a concrete two-sample heart-rate
series one second apart on each side of a gap. -/
theorem C8_witness :
    List.Pairwise (fun (a : Int × Rat) (b : Int × Rat) => a.1 < b.1)
      [((0 : Int), (10 : Rat)), ((2 : Int), (20 : Rat))] ∧
    (((interpolate_heart_rate [((0 : Int), (10 : Rat)), ((2 : Int), (20 : Rat))]).map
          (fun r => r.1)
        = gridRange 0 ((([((0 : Int), (10 : Rat)), ((2 : Int), (20 : Rat))].getLast?).map
            (fun r => r.1)).getD 0)) ∧
    (∀ p ∈ [((0 : Int), (10 : Rat)), ((2 : Int), (20 : Rat))],
        (p.1, p.2, "real")
          ∈ interpolate_heart_rate [((0 : Int), (10 : Rat)), ((2 : Int), (20 : Rat))]) ∧
    (∀ t v s,
        (t, v, s) ∈ interpolate_heart_rate [((0 : Int), (10 : Rat)), ((2 : Int), (20 : Rat))] →
        s = "sampled" →
        hrLookup [((0 : Int), (10 : Rat)), ((2 : Int), (20 : Rat))] t = none ∧
          v = interpAt [((0 : Int), (10 : Rat)), ((2 : Int), (20 : Rat))] t) ∧
    (∀ t v s,
        (t, v, s) ∈ interpolate_heart_rate [((0 : Int), (10 : Rat)), ((2 : Int), (20 : Rat))] →
        s = "real" →
        hrLookup [((0 : Int), (10 : Rat)), ((2 : Int), (20 : Rat))] t = some v) ∧
    (∀ (speed : List (Int × Rat)) (l : Int) (x y : Rat),
        hrLookup speed l = some x →
        hrLookup ((interpolate_heart_rate
            [((0 : Int), (10 : Rat)), ((2 : Int), (20 : Rat))]).enum.map
          (fun q => ((q.1 : Int), q.2.2.1))) l = some y →
        (l, some (x / y)) ∈ calc_pace_per_heart_rate speed
          (interpolate_heart_rate [((0 : Int), (10 : Rat)), ((2 : Int), (20 : Rat))]))) :=
  ⟨by decide, C8_run_interpolation 0 10 [(2, 20)] (by decide)⟩
